import Mathlib

/-!
Verification of the emoji list widget (`chat_helpers/emoji_list_widget.cpp`):
a shallow embedding of its layout engine, repaint coalescer, viewport
virtualizer, catalog refresh and interaction state machine, with theorems
settling the specification's claims about them.
-/

namespace EmojiList

/-- Number of built-in emoji sections (`kEmojiSectionCount`). -/
def kEmojiSectionCount : Nat := 8

/-! ## Layout engine (`enumerateSections`, `sectionInfoByOffset`) -/

/-- Geometry of one section, as filled in by
`EmojiListWidget::enumerateSections`. -/
structure SectionInfo where
  sectionIdx : Nat
  count : Nat
  top : Nat
  rowsCount : Nat
  rowsTop : Nat
  rowsBottom : Nat
  deriving Repr, DecidableEq, Inhabited

/-- Style constants and derived grid metrics used by the widget
(`st::emojiPanPadding`, `st::emojiPanHeader`, `_singleSize`, `_rowsLeft`,
`_columnCount`). -/
structure GridStyle where
  emojiPanPadding : Nat
  emojiPanHeader : Nat
  singleW : Nat
  singleH : Nat
  rowsLeft : Int
  columnCount : Nat
  deriving Repr, DecidableEq

/-- Body of `EmojiListWidget::enumerateSections`: walks the ordered section
counts accumulating `info.top`, computing for each section its row count
`(count + columnCount - 1) / columnCount`, its `rowsTop`
(`top + (first ? padding : header)`) and `rowsBottom`. -/
def enumerateSectionsFrom (g : GridStyle) : Nat → Nat → List Nat → List SectionInfo
  | _, _, [] => []
  | i, top, c :: rest =>
    let rowsCount := (c + g.columnCount - 1) / g.columnCount
    let rowsTop := top + (if i = 0 then g.emojiPanPadding else g.emojiPanHeader)
    let rowsBottom := rowsTop + rowsCount * g.singleH
    { sectionIdx := i, count := c, top := top, rowsCount := rowsCount,
      rowsTop := rowsTop, rowsBottom := rowsBottom }
      :: enumerateSectionsFrom g (i + 1) rowsBottom rest

/-- Full section geometry list for the given ordered section counts
(built-ins first, then custom sets), starting at section 0 and top 0. -/
def sectionInfos (g : GridStyle) (counts : List Nat) : List SectionInfo :=
  enumerateSectionsFrom g 0 0 counts

/-- The `EmojiListWidget::sectionInfoByOffset` query: the first section whose
`rowsBottom` lies strictly below the offset, saturating to the last section
for offsets below everything. -/
def sectionInfoByOffset : List SectionInfo → Int → SectionInfo
  | [], _ => default
  | [info], _ => info
  | info :: rest, y =>
    if y < (info.rowsBottom : Int) then info else sectionInfoByOffset rest y

/-! ## Linear index conversion

Modelled from the spec: the repository's `layout/layout_position.h`, which
declares `Layout::PositionToIndex` and `Layout::IndexToPosition` used by
`updateSelected` / `mouseReleaseEvent`, is not among the provided sources.
Per the spec (section 4.1) the widget "converts between linear item index and
(section, offset) via a running total of prior sections' counts". -/

/-- Modelled from the spec: `Layout::PositionToIndex` — the linear index of
item `offset` of section `sectionIdx` is the running total of the counts of
all prior sections plus the offset. -/
def PositionToIndex (counts : List Nat) (sectionIdx offset : Nat) : Nat :=
  (counts.take sectionIdx).sum + offset

/-- Helper for `IndexToPosition`: walk the counts, subtracting each section's
count until the remaining index falls inside a section. -/
def IndexToPositionAux : List Nat → Nat → Nat → Nat × Nat
  | [], s, i => (s, i)
  | c :: rest, s, i =>
    if i < c then (s, i) else IndexToPositionAux rest (s + 1) (i - c)

/-- Modelled from the spec: `Layout::IndexToPosition` — recover the
(section, offset) pair of a linear index against the current counts snapshot
by a running total of prior sections' counts. -/
def IndexToPosition (counts : List Nat) (i : Nat) : Nat × Nat :=
  IndexToPositionAux counts 0 i

/-! ## Repaint coalescer (`repaintLater`, `scheduleRepaintTimer`,
`invokeRepaints`, `repaintCustom`) -/

/-- One repaint bucket (`EmojiListWidget::RepaintBunch`): the deadline and
the set of custom-set identifiers pending repaint for one duration class. -/
structure RepaintBunch where
  whenTime : Nat
  ids : Finset Nat
  deriving DecidableEq

/-- State of the repaint coalescer: whether the instance registry is empty
(`_instances.empty()`), the per-duration buckets (`_repaints`), the armed
wake-up time (`_repaintNext`, 0 meaning none), the armed timer's absolute
target (`_repaintTimer`, modelled by its deadline), and the pending
postponed-call flag (`_repaintTimerScheduled`). -/
structure CoalescerState where
  instancesEmpty : Bool
  repaints : List (Nat × RepaintBunch)
  repaintNext : Nat
  timerDeadline : Option Nat
  scheduled : Bool
  deriving DecidableEq

/-- The `_repaints[request.duration]` access followed by the body of
`repaintLater`: find-or-create the bucket for the duration class (a fresh
bucket default-constructs with deadline 0 and an empty id set), then raise
its deadline to the requested time if later (`if (repaint.when <
request.when) repaint.when = request.when`) and insert the set id. -/
def upsertRepaint : List (Nat × RepaintBunch) → Nat → Nat → Nat →
    List (Nat × RepaintBunch)
  | [], duration, setId, whenTime =>
    [(duration, { whenTime := whenTime, ids := {setId} })]
  | (k, b) :: rest, duration, setId, whenTime =>
    if k = duration then
      (k, { whenTime := max b.whenTime whenTime,
            ids := insert setId b.ids }) :: rest
    else (k, b) :: upsertRepaint rest duration setId whenTime

/-- The `EmojiListWidget::repaintLater` entry point: drop the request when
the instance registry is empty, otherwise update the duration bucket and
request scheduling (`scheduleRepaintTimer` sets `_repaintTimerScheduled`
and posts the scheduling body). -/
def repaintLater (st : CoalescerState) (setId duration whenTime : Nat) :
    CoalescerState :=
  if st.instancesEmpty then st
  else
    { st with
      repaints := upsertRepaint st.repaints duration setId whenTime,
      scheduled := true }

/-- The minimum-deadline fold from the posted body of
`scheduleRepaintTimer` (`if (!next || next > bunch.when) next =
bunch.when`); 0 plays the role of "none". -/
def minRepaintNext (repaints : List (Nat × RepaintBunch)) : Nat :=
  repaints.foldl
    (fun next db => if next = 0 ∨ db.2.whenTime < next then db.2.whenTime else next)
    0

/-- The postponed body of `scheduleRepaintTimer`, run at time `now`: clear
the scheduled flag, compute the minimum deadline across all pending duration
classes, and if it is set and earlier than the currently armed wake-up,
either fire immediately (when `now` has already reached it — the returned
flag signals that `invokeRepaints` runs) or arm the single timer for it. -/
def schedulePostponedBody (st : CoalescerState) (now : Nat) :
    CoalescerState × Bool :=
  let st := { st with scheduled := false }
  let next := minRepaintNext st.repaints
  if next ≠ 0 ∧ (st.repaintNext = 0 ∨ next < st.repaintNext) then
    if next ≤ now then
      ({ st with repaintNext := 0, timerDeadline := none }, true)
    else
      ({ st with repaintNext := next, timerDeadline := some next }, false)
  else (st, false)

/-- The erase loop of `EmojiListWidget::invokeRepaints`: keep the buckets
whose deadline is still in the future, and union the pending id sets of the
buckets whose deadline has passed (`i->second.when > now` keeps, otherwise
the ids are merged and the bucket erased). -/
def collectDue : List (Nat × RepaintBunch) → Nat →
    List (Nat × RepaintBunch) × Finset Nat
  | [], _ => ([], ∅)
  | (k, b) :: rest, now =>
    let kept := collectDue rest now
    if now < b.whenTime then ((k, b) :: kept.1, kept.2)
    else (kept.1, b.ids ∪ kept.2)

/-- The `EmojiListWidget::invokeRepaints` step at time `now`: reset
`_repaintNext`, remove every due bucket, and return the union of their id
sets (which is then passed to `repaintCustom`); the trailing
`scheduleRepaintTimer` call re-requests scheduling. -/
def invokeRepaints (st : CoalescerState) (now : Nat) :
    CoalescerState × Finset Nat :=
  let due := collectDue st.repaints now
  ({ st with repaintNext := 0, repaints := due.1, scheduled := true }, due.2)

/-- An invalidated rectangle, as passed to `update(x, y, width, height)`. -/
structure UpdateRect where
  x : Nat
  y : Nat
  w : Nat
  h : Nat
  deriving Repr, DecidableEq

/-- The `EmojiListWidget::repaintCustom` template: enumerate the sections
and invalidate `(0, rowsTop, width, rowsBottom - rowsTop)` for every custom
section whose set id satisfies the predicate (`info.section >=
kEmojiSectionCount && checkId(_custom[info.section -
kEmojiSectionCount].id)`). -/
def repaintCustom (widgetWidth : Nat) (customIds : List Nat)
    (checkId : Nat → Bool) : List SectionInfo → List UpdateRect
  | [] => []
  | info :: rest =>
    if kEmojiSectionCount ≤ info.sectionIdx
        ∧ checkId (customIds.getD (info.sectionIdx - kEmojiSectionCount) 0) then
      { x := 0, y := info.rowsTop, w := widgetWidth,
        h := info.rowsBottom - info.rowsTop }
        :: repaintCustom widgetWidth customIds checkId rest
    else repaintCustom widgetWidth customIds checkId rest

/-! ## Custom sets, instance registry and viewport virtualizer

Renderable instances (`EmojiListWidget::CustomInstance`) live in the
registry `_instances`, a map keyed by the content document id; the
`CustomOne` entries of the sections hold non-owning references to registry
entries, so an item's instance is exactly the registry entry of its
document id (`refreshCustom` establishes this by construction). The
instance's decoded/animation state is modelled by a loaded flag, unloaded
by `object.unload()`. -/

/-- One custom item (`EmojiListWidget::CustomOne`): its content document id.
The `instance` pointer it also carries aliases the registry entry for that
document id, so the registry key stands in for it here. -/
structure CustomOne where
  document : Nat
  deriving Repr, DecidableEq, Inhabited

/-- One custom set (`EmojiListWidget::CustomSet`): identifier, title, item
list and the per-section painted flag. -/
structure CustomSet where
  id : Nat
  title : Nat
  list : List CustomOne
  painted : Bool
  deriving Repr, DecidableEq, Inhabited

/-- The instance registry `_instances`: content document id mapped to the
loaded state of the instance's decoded/animation object. -/
abbrev Instances := List (Nat × Bool)

/-- Look up a registry entry by document id. -/
def instancesFind (ins : Instances) (doc : Nat) : Option Bool :=
  (ins.find? (fun e => e.1 = doc)).map (·.2)

/-- The effect of `single.instance->object.unload()`: clear the loaded state
of the registry entry aliased by the item's instance pointer. -/
def setUnloaded (ins : Instances) (doc : Nat) : Instances :=
  ins.map (fun e => if e.1 = doc then (e.1, false) else e)

/-- Unload every item of one custom set (the inner loop of
`unloadNotSeenCustom`). -/
def unloadCustomSet (ins : Instances) (c : CustomSet) : Instances :=
  c.list.foldl (fun acc single => setUnloaded acc single.document) ins

/-- Body of `EmojiListWidget::unloadNotSeenCustom` over the custom sets
(the `enumerateSections` callback skips built-in sections and sections
whose rows intersect the visible range; for the rest, a set still marked
painted has its flag cleared and every item's instance unloaded). `k` is
the index into `_custom`, so the geometry row bounds come from section
`kEmojiSectionCount + k`. -/
def unloadNotSeenAux (infos : List SectionInfo) (visibleTop visibleBottom : Nat) :
    Nat → List CustomSet → Instances → List CustomSet × Instances
  | _, [], ins => ([], ins)
  | k, c :: rest, ins =>
    let info := infos.getD (kEmojiSectionCount + k) default
    if visibleTop < info.rowsBottom ∧ info.rowsTop < visibleBottom then
      let next := unloadNotSeenAux infos visibleTop visibleBottom (k + 1) rest ins
      (c :: next.1, next.2)
    else if c.painted then
      let ins := unloadCustomSet ins c
      let next := unloadNotSeenAux infos visibleTop visibleBottom (k + 1) rest ins
      ({ c with painted := false } :: next.1, next.2)
    else
      let next := unloadNotSeenAux infos visibleTop visibleBottom (k + 1) rest ins
      (c :: next.1, next.2)

/-- The full `unloadNotSeenCustom(visibleTop, visibleBottom)` pass, given the
current grid style and built-in counts (which fix the section geometry). -/
def unloadNotSeenCustom (g : GridStyle) (counts : List Nat)
    (custom : List CustomSet) (ins : Instances)
    (visibleTop visibleBottom : Nat) : List CustomSet × Instances :=
  let infos := sectionInfos g (counts ++ custom.map (fun c => c.list.length))
  unloadNotSeenAux infos visibleTop visibleBottom 0 custom ins

/-! ## Catalog refresh (`refreshCustom`) -/

/-- The `ranges::find(old, setId, &CustomSet::id)` lookup: the first prior
set with the given id. -/
def findCustom (old : List CustomSet) (setId : Nat) : Option CustomSet :=
  old.find? (fun c => c.id = setId)

/-- The `base::take(*i)` on the found element: replace the first prior set
with the given id by a default-constructed `CustomSet` (what a moved-from
value is left as). -/
def takeCustom : List CustomSet → Nat → List CustomSet
  | [], _ => []
  | c :: rest, setId =>
    if c.id = setId then default :: rest else c :: takeCustom rest setId

/-- The `valid` check of `refreshCustom`: the prior set is content-identical
to the incoming sticker list — same length and the same document at every
position. -/
def validReuse (c : CustomSet) (docs : List Nat) : Bool :=
  c.list.map (fun single => single.document) = docs

/-- The fresh-build loop of `refreshCustom`: for every document that is a
sticker, look its instance up in the registry, creating a fresh (not yet
loaded) entry when absent, and append a `CustomOne` referencing it. -/
def buildSet (sticker : Nat → Bool) : List Nat → Instances →
    List CustomOne × Instances
  | [], ins => ([], ins)
  | doc :: rest, ins =>
    if sticker doc then
      let ins := match instancesFind ins doc with
        | some _ => ins
        | none => ins ++ [(doc, false)]
      let next := buildSet sticker rest ins
      ({ document := doc } :: next.1, next.2)
    else buildSet sticker rest ins

/-- The body of `EmojiListWidget::refreshCustom`: walk the catalog order;
skip identifiers without a set or with an empty sticker list; reuse the
moved-out prior set when one with the same id exists and is
content-identical; otherwise build the set afresh against the registry
(painted defaults to false). `sets` maps a set id to its title and ordered
sticker document list. -/
def refreshCustomAux (sticker : Nat → Bool)
    (sets : Nat → Option (Nat × List Nat)) :
    List Nat → List CustomSet → Instances → List CustomSet × Instances
  | [], _, ins => ([], ins)
  | setId :: order, old, ins =>
    match sets setId with
    | none => refreshCustomAux sticker sets order old ins
    | some (title, docs) =>
      if docs = [] then refreshCustomAux sticker sets order old ins
      else
        match findCustom old setId with
        | some c =>
          if validReuse c docs then
            let next := refreshCustomAux sticker sets order (takeCustom old setId) ins
            (c :: next.1, next.2)
          else
            let fresh := buildSet sticker docs ins
            let next := refreshCustomAux sticker sets order old fresh.2
            ({ id := setId, title := title, list := fresh.1, painted := false }
              :: next.1, next.2)
        | none =>
          let fresh := buildSet sticker docs ins
          let next := refreshCustomAux sticker sets order old fresh.2
          ({ id := setId, title := title, list := fresh.1, painted := false }
            :: next.1, next.2)

/-- The `refreshCustom` entry point: `auto old = base::take(_custom)` then
rebuild the custom list wholesale from the catalog order. -/
def refreshCustom (sticker : Nat → Bool)
    (sets : Nat → Option (Nat × List Nat)) (order : List Nat)
    (old : List CustomSet) (ins : Instances) : List CustomSet × Instances :=
  refreshCustomAux sticker sets order old ins

/-! ## Interaction state machine

The widget's interaction handlers (`mousePressEvent`, `mouseReleaseEvent`,
`mouseMoveEvent`, `updateSelected`, `showPicker`, `colorChosen`) and the
variant overlay (`EmojiColorPicker`). Emoji are identified by plain
numbers; their variant structure (`hasVariants`, `nonColoredId`,
`variantsCount`, `variant(i)`) is supplied by an environment. Calls out to
collaborators are recorded as events. -/

/-- The emoji data the handlers consult (`EmojiPtr` operations). -/
structure EmojiEnv where
  hasVariants : Nat → Bool
  nonColoredId : Nat → Nat
  variantsCount : Nat → Nat
  variantAt : Nat → Nat → Nat

/-- Observable calls out of the widget: the `chosen` /  `customChosen`
events, the recently-used and variant-preference collaborators, the
overlay show/hide operations, the press-to-overlay delay timer, and scroll
disabling. -/
inductive WEvent where
  | chosen (e : Nat)
  | recentIncremented (e : Nat)
  | customChosen (doc : Nat)
  | variantSaved (e : Nat)
  | pickerShowEmoji (e : Nat)
  | pickerHideAnimated
  | pickerHideImmediate
  | timerArm (ms : Nat)
  | timerCancel
  | disableScroll (flag : Bool)
  deriving Repr, DecidableEq

/-- Style constants of the variant overlay (`st::emojiPanMargins`,
`st::emojiColorsPadding`, `st::emojiColorsSep`) plus its `_singleSize`. -/
structure PickerStyle where
  marginLeft : Nat
  marginTop : Nat
  marginRight : Nat
  marginBottom : Nat
  colorsPadding : Nat
  colorsSep : Nat
  singleW : Nat
  singleH : Nat
  deriving Repr, DecidableEq

/-- State of the `EmojiColorPicker` overlay: the variant strip, its own
selected/pressed indices, last pointer position (global), visibility
(`isHidden()` / `_hiding`), and `_ignoreShow`. -/
structure PickerState where
  variants : List Nat
  selected : Int
  pressedSel : Int
  lastMousePos : Int × Int
  hidden : Bool
  isHiding : Bool
  ignoreShow : Bool
  deriving Repr, DecidableEq

/-- Width of the overlay, from `EmojiColorPicker::updateSize`. -/
def pickerWidth (ps : PickerStyle) (variantsCount : Nat) : Int :=
  (ps.marginLeft : Int) + ps.singleW * variantsCount
    + ((variantsCount : Int) - 2) * ps.colorsPadding
    + ps.colorsSep + ps.marginRight

/-- Height of the overlay, from `EmojiColorPicker::updateSize`. -/
def pickerHeight (ps : PickerStyle) : Int :=
  (ps.marginTop : Int) + 2 * ps.colorsPadding + ps.singleH + ps.marginBottom

/-- The `EmojiColorPicker::updateSelected` hit test (left-to-right layout):
local coordinates against the variant strip — variant 0 sits first,
followed by the separator, then variants 1.. at `singleW` steps. -/
def pickerUpdateSelected (ps : PickerStyle) (pickerPos : Int × Int)
    (pk : PickerState) : PickerState :=
  let p := (pk.lastMousePos.1 - pickerPos.1, pk.lastMousePos.2 - pickerPos.2)
  let y := p.2 - ps.marginTop - ps.colorsPadding
  let newSelected : Int :=
    if 0 ≤ y ∧ y < (ps.singleH : Int) then
      let x := p.1 - ps.marginLeft - ps.colorsPadding
      if 0 ≤ x ∧ x < (ps.singleW : Int) then 0
      else
        let x := x - ((ps.singleW : Int) + 2 * ps.colorsPadding + ps.colorsSep)
        if 0 ≤ x ∧ x < (ps.singleW : Int) * ((pk.variants.length : Int) - 1) then
          x / ps.singleW + 1
        else -1
    else -1
  { pk with selected := newSelected }

/-- The `EmojiColorPicker::clearSelection` reset: pressed and selected go to
-1 and the tracked pointer moves to the sentinel "nowhere" position. -/
def pickerClearSelection (pickerPos : Int × Int) (pk : PickerState) :
    PickerState :=
  { pk with
    pressedSel := -1
    selected := -1
    lastMousePos := (pickerPos.1 - 10, pickerPos.2 - 10) }

/-- The `EmojiColorPicker::handleMouseMove` handler: retarget the pointer
and recompute the overlay's own selection. -/
def pickerHandleMouseMove (ps : PickerStyle) (pickerPos : Int × Int)
    (pk : PickerState) (globalPos : Int × Int) : PickerState :=
  pickerUpdateSelected ps pickerPos { pk with lastMousePos := globalPos }

/-- The `EmojiColorPicker::handleMouseRelease` handler: consume the press
index, recompute the selection under the release point, and commit
`_variants[_selected]` when the selection is valid and either no press was
recorded or the release lands on the pressed index; the overlay then hides
(animated) with `_ignoreShow` set. Returns the committed variant, if any. -/
def pickerHandleMouseRelease (ps : PickerStyle) (pickerPos : Int × Int)
    (pk : PickerState) (globalPos : Int × Int) : PickerState × Option Nat :=
  let pressed := pk.pressedSel
  let pk := { pk with lastMousePos := globalPos, pressedSel := -1 }
  let pk := pickerUpdateSelected ps pickerPos pk
  let commit : Option Nat :=
    if 0 ≤ pk.selected ∧ (pressed < 0 ∨ pk.selected = pressed) then
      some (pk.variants.getD pk.selected.toNat 0)
    else none
  ({ pk with ignoreShow := true, isHiding := true }, commit)

/-- The `EmojiColorPicker::showEmoji` call: ignored for an emoji without
variants; otherwise clear `_ignoreShow`, rebuild the variant strip as
`emoji->variant(0) .. emoji->variant(variantsCount)` and show (animated). -/
def pickerShowEmoji (env : EmojiEnv) (pk : PickerState) (e : Nat) :
    PickerState :=
  if env.hasVariants e then
    { pk with
      ignoreShow := false,
      variants := (List.range (env.variantsCount e + 1)).map (env.variantAt e),
      hidden := false, isHiding := false }
  else pk

/-- The `_picker->rect().contains(_picker->mapFromGlobal(pos))` test of the
widget's release/move handlers. -/
def pickerContains (ps : PickerStyle) (pickerPos : Int × Int)
    (pk : PickerState) (globalPos : Int × Int) : Prop :=
  0 ≤ globalPos.1 - pickerPos.1
    ∧ globalPos.1 - pickerPos.1 < pickerWidth ps pk.variants.length
    ∧ 0 ≤ globalPos.2 - pickerPos.2
    ∧ globalPos.2 - pickerPos.2 < pickerHeight ps

instance (ps : PickerStyle) (pickerPos : Int × Int) (pk : PickerState)
    (globalPos : Int × Int) : Decidable (pickerContains ps pickerPos pk globalPos) :=
  by unfold pickerContains; infer_instance

/-- Interaction-relevant state of `EmojiListWidget`: built-in counts
(`_counts`), loaded built-in emoji (`_emoji`), custom sets and the instance
registry, grid metrics, the three mutually-constrained indices
(`_selected`, `_pressedSel`, `_pickerSel`), the tracked pointer
(`_lastMousePos`), the press-to-overlay delay timer flag
(`_showPickerTimer`), the overlay state with its widget position, and the
stored variant preferences (`emojiVariants`, keyed by non-colored id). -/
structure EmojiListState where
  counts : List Nat
  emoji : List (List Nat)
  custom : List CustomSet
  instances : Instances
  grid : GridStyle
  selected : Int
  pressedSel : Int
  pickerSel : Int
  lastMousePos : Int × Int
  showPickerTimerActive : Bool
  picker : PickerState
  pickerPos : Int × Int
  emojiVariants : List (Nat × Nat)
  deriving DecidableEq

/-- The full ordered section counts of the current snapshot: built-in
`_counts` followed by the custom sets' item counts. -/
def countsAll (st : EmojiListState) : List Nat :=
  st.counts ++ st.custom.map (fun c => c.list.length)

/-- Stored-preference lookup, `variants.contains(emoji->nonColoredId())`. -/
def variantsContains (prefs : List (Nat × Nat)) (key : Nat) : Prop :=
  ∃ p ∈ prefs, p.1 = key

instance (prefs : List (Nat × Nat)) (key : Nat) :
    Decidable (variantsContains prefs key) := by
  unfold variantsContains; infer_instance

/-- The `saveEmojiVariant` collaborator call: store the variant preference
under the emoji's non-colored id. -/
def saveEmojiVariant (prefs : List (Nat × Nat)) (key e : Nat) :
    List (Nat × Nat) :=
  match prefs with
  | [] => [(key, e)]
  | p :: rest => if p.1 = key then (key, e) :: rest
      else p :: saveEmojiVariant rest key e

/-- Write `_emoji[sectionIdx][sel] = e`. -/
def setEmojiAt (emoji : List (List Nat)) (sectionIdx sel e : Nat) :
    List (List Nat) :=
  emoji.mapIdx (fun i row => if i = sectionIdx then row.set sel e else row)

/-- The widget's `setSelected`: store the new selection and, when something
is selected while the overlay is shown, hide the overlay (animated) unless
the selection is the overlay's own target, which instead re-shows it. -/
def setSelected (st : EmojiListState) (newSelected : Int) : EmojiListState :=
  if st.selected = newSelected then st
  else
    let st := { st with selected := newSelected }
    if 0 ≤ st.selected ∧ ¬st.picker.hidden then
      if st.selected ≠ st.pickerSel then
        { st with picker := { st.picker with isHiding := true } }
      else
        { st with picker :=
          if st.picker.ignoreShow ∨ (¬st.picker.hidden ∧ ¬st.picker.isHiding)
          then st.picker
          else { st.picker with hidden := false, isHiding := false } }
    else st

/-- The selection the widget's `updateSelected` computes from the tracked
pointer: resolve the pointer against the section geometry
(`sectionInfoByOffset` plus row/column arithmetic against `info.count`),
-1 when outside any item cell. -/
def hoveredIndex (st : EmojiListState) : Int :=
  let p := st.lastMousePos
  let infos := sectionInfos st.grid (countsAll st)
  let info := sectionInfoByOffset infos p.2
  if (info.rowsTop : Int) ≤ p.2 ∧ p.2 < (info.rowsBottom : Int) then
    let sx := p.1 - st.grid.rowsLeft
    if 0 ≤ sx ∧ sx < ((st.grid.columnCount * st.grid.singleW : Nat) : Int) then
      let ns := ((p.2 - info.rowsTop).toNat / st.grid.singleH)
        * st.grid.columnCount + sx.toNat / st.grid.singleW
      if info.count ≤ ns then -1
      else ((ns + PositionToIndex (countsAll st) info.sectionIdx 0 : Nat) : Int)
    else -1
  else -1

/-- The widget's `updateSelected`: a no-op while a press is active or an
overlay target is set; otherwise store the pointer-derived selection via
`setSelected`. -/
def updateSelected (st : EmojiListState) : EmojiListState :=
  if 0 ≤ st.pressedSel ∨ 0 ≤ st.pickerSel then st
  else setSelected st (hoveredIndex st)

/-- The `checkPickerHide` helper of the press handler: when the overlay is
shown with a target, hide it (animated), clear the target and recompute the
selection, reporting that the press was consumed. -/
def checkPickerHide (st : EmojiListState) : EmojiListState × Bool :=
  if ¬st.picker.hidden ∧ 0 ≤ st.pickerSel then
    let st := { st with
      picker := { st.picker with isHiding := true }
      pickerSel := -1 }
    (updateSelected st, true)
  else (st, false)

/-- The widget's `showPicker`: with a valid overlay target on a loaded
built-in multi-variant emoji, hand the emoji to the overlay (which rebuilds
its variant strip and shows) and suspend scrolling. The overlay's move to
its computed position is not modelled (it uses floating-point rounding and
no claim depends on the position's value). -/
def showPicker (env : EmojiEnv) (st : EmojiListState) :
    EmojiListState × List WEvent :=
  if st.pickerSel < 0 then (st, [])
  else
    let sp := IndexToPosition (countsAll st) st.pickerSel.toNat
    let row := st.emoji.getD sp.1 []
    if sp.1 < kEmojiSectionCount ∧ sp.2 < row.length
        ∧ env.hasVariants (row.getD sp.2 0) then
      let e := row.getD sp.2 0
      ({ st with picker := pickerShowEmoji env st.picker e },
        [WEvent.pickerShowEmoji e, WEvent.disableScroll true])
    else (st, [])

/-- The widget's `selectEmoji`: bump the recently-used collaborator and
fire `chosen`. -/
def selectEmojiEvents (e : Nat) : List WEvent :=
  [WEvent.recentIncremented e, WEvent.chosen e]

/-- The widget's `colorChosen` (wired to the overlay's `chosen` stream):
persist the variant preference for a multi-variant emoji, substitute the
variant into the grid cell of the overlay's target, commit it as an
ordinary selection, and hide the overlay (animated). -/
def colorChosen (env : EmojiEnv) (st : EmojiListState) (e : Nat) :
    EmojiListState × List WEvent :=
  let saved : Bool := env.hasVariants e
  let st :=
    if saved then
      { st with emojiVariants := saveEmojiVariant st.emojiVariants (env.nonColoredId e) e }
    else st
  let st :=
    if 0 ≤ st.pickerSel then
      let sp := IndexToPosition (countsAll st) st.pickerSel.toNat
      if sp.1 < kEmojiSectionCount then
        { st with emoji := setEmojiAt st.emoji sp.1 sp.2 e }
      else st
    else st
  let st := { st with picker := { st.picker with isHiding := true } }
  (st, (if saved then [WEvent.variantSaved e] else [])
    ++ selectEmojiEvents e ++ [WEvent.pickerHideAnimated])

/-- Deadline of the bucket a duration class currently owns, if any. -/
def bunchWhen (repaints : List (Nat × RepaintBunch)) (duration : Nat) :
    Option Nat :=
  (repaints.find? (fun kb => kb.1 = duration)).map (fun kb => kb.2.whenTime)

/-- The custom-item list a fresh (non-reusing) set build produces: one item
per sticker document, in order (`buildSet` forgetting the registry). -/
def freshList (sticker : Nat → Bool) (docs : List Nat) : List CustomOne :=
  (docs.filter sticker).map (fun d => { document := d })

/-- Declarative per-set-id description of one `refreshCustom` step against
the original (untaken) prior list: skipped identifiers yield nothing; the
first prior set with the same identifier is reused when content-identical,
and a fresh set (painted clear) is built otherwise. -/
def refreshSpecOne (sticker : Nat → Bool)
    (sets : Nat → Option (Nat × List Nat)) (old : List CustomSet)
    (setId : Nat) : Option CustomSet :=
  match sets setId with
  | none => none
  | some (title, docs) =>
    if docs = [] then none
    else
      match findCustom old setId with
      | some c =>
        if validReuse c docs then some c
        else some { id := setId, title := title
                    list := freshList sticker docs, painted := false }
      | none => some { id := setId, title := title
                       list := freshList sticker docs, painted := false }

/-- The widget's `mousePressEvent`: track the pointer, recompute the
selection, and bail out when the press dismissed a shown overlay or is not
the left button. Otherwise record the press; a press on a loaded built-in
multi-variant emoji becomes the overlay target and either opens the
overlay synchronously (no stored preference for its non-colored id) or
arms the fixed 500 ms delay timer (stored preference present). -/
def mousePressEvent (env : EmojiEnv) (st : EmojiListState)
    (globalPos : Int × Int) (leftButton : Bool) :
    EmojiListState × List WEvent :=
  let st := updateSelected { st with lastMousePos := globalPos }
  let hid := checkPickerHide st
  if hid.2 ∨ ¬leftButton then (hid.1, [])
  else
    let st : EmojiListState := { hid.1 with pressedSel := hid.1.selected }
    if 0 ≤ st.selected then
      let sp := IndexToPosition (countsAll st) st.selected.toNat
      let row := st.emoji.getD sp.1 []
      if sp.1 < kEmojiSectionCount ∧ sp.2 < row.length
          ∧ env.hasVariants (row.getD sp.2 0) then
        let st := { st with pickerSel := st.selected }
        if ¬variantsContains st.emojiVariants (env.nonColoredId (row.getD sp.2 0))
        then showPicker env st
        else ({ st with showPickerTimerActive := true }, [WEvent.timerArm 500])
      else (st, [])
    else (st, [])

/-- The widget's `mouseReleaseEvent`: consume the press index and retarget
the pointer; while the overlay is shown, a release inside its bounds is
forwarded to the overlay (whose committed variant, if any, feeds
`colorChosen` through the `chosen` wiring), and a release outside it while
the target has a stored preference dismisses the overlay. Otherwise the
selection is recomputed, a still-armed delay timer is cancelled with the
overlay dropped, and a release landing on the pressed index commits: a
loaded built-in emoji fires `chosen` (unless it is multi-variant with the
overlay still shown), a custom item fires `customChosen`. -/
def mouseReleaseEvent (ps : PickerStyle) (env : EmojiEnv)
    (st : EmojiListState) (globalPos : Int × Int) :
    EmojiListState × List WEvent :=
  let pressed := st.pressedSel
  let st := { st with pressedSel := -1, lastMousePos := globalPos }
  if ¬st.picker.hidden ∧ pickerContains ps st.pickerPos st.picker globalPos then
    let fwd := pickerHandleMouseRelease ps st.pickerPos st.picker globalPos
    let st := { st with picker := fwd.1 }
    match fwd.2 with
    | some v => colorChosen env st v
    | none => (st, [])
  else
    let st :=
      if ¬st.picker.hidden ∧ 0 ≤ st.pickerSel then
        let sp := IndexToPosition (countsAll st) st.pickerSel.toNat
        let row := st.emoji.getD sp.1 []
        if sp.1 < kEmojiSectionCount ∧ sp.2 < row.length
            ∧ env.hasVariants (row.getD sp.2 0)
            ∧ variantsContains st.emojiVariants
                (env.nonColoredId (row.getD sp.2 0)) then
          { st with
            picker := { st.picker with isHiding := true }
            pickerSel := -1 }
        else st
      else st
    let st := updateSelected st
    let timer := st.showPickerTimerActive
    let st :=
      if timer then
        { st with
          showPickerTimerActive := false
          pickerSel := -1
          picker := { st.picker with hidden := true, isHiding := false } }
      else st
    let evT : List WEvent := if timer then [WEvent.timerCancel] else []
    if st.selected < 0 ∨ st.selected ≠ pressed then (st, evT)
    else
      let sp := IndexToPosition (countsAll st) st.selected.toNat
      let row := st.emoji.getD sp.1 []
      if sp.1 < kEmojiSectionCount ∧ sp.2 < row.length then
        let e := row.getD sp.2 0
        if env.hasVariants e ∧ ¬st.picker.hidden then (st, evT)
        else (st, evT ++ selectEmojiEvents e)
      else
        let cset := st.custom.getD (sp.1 - kEmojiSectionCount) default
        if kEmojiSectionCount ≤ sp.1 ∧ sp.2 < cset.list.length then
          (st, evT ++ [WEvent.customChosen ((cset.list.getD sp.2 default).document)])
        else (st, evT)

/-- The widget's `mouseMoveEvent`: track the pointer; while the overlay is
shown, a pointer inside its bounds is forwarded to the overlay's own hover
tracking (skipping the grid recompute), a pointer outside it clears the
overlay's selection; then the grid selection is recomputed. -/
def mouseMoveEvent (ps : PickerStyle) (st : EmojiListState)
    (globalPos : Int × Int) : EmojiListState :=
  let st := { st with lastMousePos := globalPos }
  if ¬st.picker.hidden then
    if pickerContains ps st.pickerPos st.picker globalPos then
      { st with picker :=
        pickerHandleMouseMove ps st.pickerPos st.picker globalPos }
    else
      updateSelected { st with picker := pickerClearSelection st.pickerPos st.picker }
  else updateSelected st

/-- A small concrete overlay state (hidden, no selection) used to
instantiate theorems at concrete inputs. -/
def samplePicker : PickerState :=
  { variants := [], selected := -1, pressedSel := -1, lastMousePos := (0, 0),
    hidden := true, isHiding := false, ignoreShow := false }

/-- Concrete grid metrics: light first padding 2, header 4, 10x10 cells,
5 columns starting at x = 0. -/
def sampleGrid : GridStyle :=
  { emojiPanPadding := 2, emojiPanHeader := 4, singleW := 10, singleH := 10,
    rowsLeft := 0, columnCount := 5 }

/-- Concrete overlay style constants (margins, padding, separator 1, 10x10
variant cells). -/
def sampleStyle : PickerStyle :=
  { marginLeft := 1, marginTop := 1, marginRight := 1, marginBottom := 1,
    colorsPadding := 1, colorsSep := 1, singleW := 10, singleH := 10 }

/-- A concrete widget snapshot: built-in counts [5, 0, 2, 0, ...], sections
0 and 2 loaded, no custom sets, idle interaction state. -/
def sampleState : EmojiListState :=
  { counts := [5, 0, 2, 0, 0, 0, 0, 0]
    emoji := [[10, 11, 12, 13, 14], [], [20, 21], [], [], [], [], []]
    custom := []
    instances := []
    grid := sampleGrid
    selected := -1
    pressedSel := -1
    pickerSel := -1
    lastMousePos := (0, 0)
    showPickerTimerActive := false
    picker := samplePicker
    pickerPos := (100, 100)
    emojiVariants := [] }

/-- Whether a section's rows region intersects the visible pixel range
`[visibleTop, visibleBottom)` (the skip test of `unloadNotSeenCustom`). -/
def rowsIntersect (info : SectionInfo) (visibleTop visibleBottom : Nat) : Prop :=
  visibleTop < info.rowsBottom ∧ info.rowsTop < visibleBottom

instance (info : SectionInfo) (visibleTop visibleBottom : Nat) :
    Decidable (rowsIntersect info visibleTop visibleBottom) := by
  unfold rowsIntersect; infer_instance

/-- The content document ids of a custom set's items. -/
def sectionDocs (c : CustomSet) : List Nat :=
  c.list.map (fun s => s.document)

/-- Minimal grid metrics (single column, unit cells) for the concrete
virtualization scenarios. -/
def unitGrid : GridStyle :=
  { emojiPanPadding := 1, emojiPanHeader := 1, singleW := 1, singleH := 1,
    rowsLeft := 0, columnCount := 1 }

/-- A painted one-item custom set whose item is document 42. -/
def setA : CustomSet :=
  { id := 1, title := 0, list := [{ document := 42 }], painted := true }

/-- Another painted one-item custom set sharing document 42 with `setA`. -/
def setB : CustomSet :=
  { id := 2, title := 0, list := [{ document := 42 }], painted := true }

/-- The repaint-callback side of the instance registry: for each content
document id, the set id captured by its instance's repaint closures. The
fresh-build loop of `refreshCustom` bakes the id of the set being built
into `repaintDelayed` (`repaintLater(setId, request)`) and `repaintNow`
when it creates the instance. -/
abbrev RepaintIds := List (Nat × Nat)

/-- The repaint id carried by a document's renderable instance. -/
def repaintIdOf (cr : RepaintIds) (doc : Nat) : Option Nat :=
  (cr.find? (fun e => e.1 = doc)).map (fun e => e.2)

/-- The repaint-id effect of the fresh-build loop of `refreshCustom`
building set `setId`: a sticker document absent from the registry gets a
fresh instance whose closures capture `setId`; a document already present
keeps the closures baked in by the set that created it. -/
def buildSetRepaintIds (sticker : Nat → Bool) (setId : Nat) :
    List Nat → RepaintIds → RepaintIds
  | [], cr => cr
  | doc :: rest, cr =>
    if sticker doc then
      let cr := match repaintIdOf cr doc with
        | some _ => cr
        | none => cr ++ [(doc, setId)]
      buildSetRepaintIds sticker setId rest cr
    else buildSetRepaintIds sticker setId rest cr

/-- Claim C3's reference predicate, stated from the claim's words: a
custom set references an id when some item's renderable instance carries
that id (in its repaint closures), and the claim asks the sections
referencing a fired id to be invalidated. To be compared with the
code's `repaintCustom`, which consults only the section's own set id. -/
def sectionReferencesSpec (cr : RepaintIds) (c : CustomSet)
    (ids : Finset Nat) : Prop :=
  ∃ single ∈ c.list, ∃ i ∈ ids, repaintIdOf cr single.document = some i

instance (cr : RepaintIds) (c : CustomSet) (ids : Finset Nat) :
    Decidable (sectionReferencesSpec cr c ids) := by
  unfold sectionReferencesSpec; infer_instance

/-- Repaint-callback registry after building `setA` (set id 1) and then
`setB` (set id 2) against an initially empty registry: document 42's
instance is created while set 1 is built, so the item of `setB` also
carries repaint id 1. -/
def sharedRepaintIds : RepaintIds :=
  buildSetRepaintIds (fun _ => true) 2 (sectionDocs setB)
    (buildSetRepaintIds (fun _ => true) 1 (sectionDocs setA) [])

/-- Coalescer state with one pending bucket: duration class 1, deadline 10,
pending id set containing only set A's id 1 (the id the shared instance's
repaint closure reports for both sets' items). -/
def bucketStateA : CoalescerState :=
  { instancesEmpty := false, repaints := [(1, ⟨10, {1}⟩)],
    repaintNext := 10, timerDeadline := some 10, scheduled := false }

/-! ## Theorems -/

/-- Decoding any in-range linear index lands in range and re-encodes to the
same index (stated for an arbitrary starting section to enable the
induction). -/
theorem indexToPositionAux_decode (counts : List Nat) :
    ∀ (base i : Nat), i < counts.sum →
    base ≤ (IndexToPositionAux counts base i).1 ∧
    (IndexToPositionAux counts base i).1 - base < counts.length ∧
    (IndexToPositionAux counts base i).2 <
      counts.getD ((IndexToPositionAux counts base i).1 - base) 0 ∧
    (counts.take ((IndexToPositionAux counts base i).1 - base)).sum
      + (IndexToPositionAux counts base i).2 = i := by
  induction counts with
  | nil => intro base i h; simp at h
  | cons c rest ih =>
    intro base i h
    simp only [IndexToPositionAux]
    by_cases hic : i < c
    · simp [hic]
    · rw [if_neg hic]
      have hsum : i - c < rest.sum := by
        simp only [List.sum_cons] at h; omega
      obtain ⟨h1, h2, h3, h4⟩ := ih (base + 1) (i - c) hsum
      set r := IndexToPositionAux rest (base + 1) (i - c) with hr
      have hstep : r.1 - base = (r.1 - (base + 1)) + 1 := by omega
      refine ⟨by omega, by simp only [List.length_cons]; omega, ?_, ?_⟩
      · rw [hstep]; simpa using h3
      · rw [hstep]
        simp only [List.take_succ_cons, List.sum_cons]
        omega

/-- Encoding a valid (section, offset) pair decodes back to it (stated for
an arbitrary starting section to enable the induction). -/
theorem indexToPositionAux_encode (counts : List Nat) :
    ∀ (s o base : Nat), s < counts.length → o < counts.getD s 0 →
    IndexToPositionAux counts base ((counts.take s).sum + o) = (base + s, o) := by
  induction counts with
  | nil => intro s o base hs; simp at hs
  | cons c rest ih =>
    intro s o base hs ho
    cases s with
    | zero =>
      simp only [List.take_zero, List.sum_nil, Nat.zero_add, IndexToPositionAux]
      simp only [List.getD_cons_zero] at ho
      simp [ho]
    | succ s =>
      simp only [List.take_succ_cons, List.sum_cons, IndexToPositionAux]
      have hlt : ¬ (c + (rest.take s).sum + o < c) := by omega
      have harr : c + (rest.take s).sum + o = c + ((rest.take s).sum + o) := by omega
      rw [harr] at hlt ⊢
      rw [if_neg hlt]
      have hs' : s < rest.length := by simpa using hs
      have ho' : o < rest.getD s 0 := by simpa using ho
      have := ih s o (base + 1) hs' ho'
      rw [Nat.add_sub_cancel_left, this]
      congr 1
      omega

/-- An encoded valid pair is an in-range linear index. -/
theorem positionToIndex_lt_sum (counts : List Nat) :
    ∀ (s o : Nat), s < counts.length → o < counts.getD s 0 →
    PositionToIndex counts s o < counts.sum := by
  induction counts with
  | nil => intro s o hs; simp at hs
  | cons c rest ih =>
    intro s o hs ho
    cases s with
    | zero =>
      simp only [List.getD_cons_zero] at ho
      simp only [PositionToIndex, List.take_zero, List.sum_nil, Nat.zero_add,
        List.sum_cons]
      omega
    | succ s =>
      have hs' : s < rest.length := by simpa using hs
      have ho' : o < rest.getD s 0 := by simpa using ho
      have := ih s o hs' ho'
      simp only [PositionToIndex, List.take_succ_cons, List.sum_cons] at this ⊢
      omega

/-- Claim C1: for every valid column count and every list of section item
counts, the linear-index and (section, offset) conversions used when
resolving a press/release (`IndexToPosition`) and when computing the
hovered index (`PositionToIndex`) form a total bijection over the current
counts snapshot: decoding any in-range linear index yields a valid pair
that re-encodes to the same index, and encoding any valid pair yields an
in-range index that decodes back to the same pair. (The column count does
not enter the conversion itself — the per-section offset already folds the
row/column arithmetic.) -/
theorem C1_linear_index_bijection (counts : List Nat) :
    (∀ i, i < counts.sum →
      (IndexToPosition counts i).1 < counts.length ∧
      (IndexToPosition counts i).2 <
        counts.getD (IndexToPosition counts i).1 0 ∧
      PositionToIndex counts (IndexToPosition counts i).1
        (IndexToPosition counts i).2 = i) ∧
    (∀ s o, s < counts.length → o < counts.getD s 0 →
      PositionToIndex counts s o < counts.sum ∧
      IndexToPosition counts (PositionToIndex counts s o) = (s, o)) := by
  constructor
  · intro i hi
    obtain ⟨h1, h2, h3, h4⟩ := indexToPositionAux_decode counts 0 i hi
    simp only [Nat.sub_zero] at h2 h3 h4
    exact ⟨by simpa using h2, by simpa using h3, by simpa [PositionToIndex] using h4⟩
  · intro s o hs ho
    refine ⟨positionToIndex_lt_sum counts s o hs ho, ?_⟩
    have := indexToPositionAux_encode counts s o 0 hs ho
    simpa [IndexToPosition, PositionToIndex] using this

/-- Witness for C1 at the snapshot `[5, 0, 2]`: linear index 6 decodes to
section 2 offset 1 and re-encodes to 6; the pair (0, 3) encodes to 3 and
decodes back. -/
theorem C1_linear_index_bijection_witness :
    (6 < ([5, 0, 2] : List Nat).sum ∧
      IndexToPosition [5, 0, 2] 6 = (2, 1) ∧
      PositionToIndex [5, 0, 2] (IndexToPosition [5, 0, 2] 6).1
        (IndexToPosition [5, 0, 2] 6).2 = 6) ∧
    (PositionToIndex [5, 0, 2] 0 3 < ([5, 0, 2] : List Nat).sum ∧
      IndexToPosition [5, 0, 2] (PositionToIndex [5, 0, 2] 0 3) = (0, 3)) := by
  refine ⟨⟨by decide, by decide, ?_⟩, ?_, ?_⟩
  · exact ((C1_linear_index_bijection [5, 0, 2]).1 6 (by decide)).2.2
  · exact ((C1_linear_index_bijection [5, 0, 2]).2 0 3 (by decide) (by decide)).1
  · exact ((C1_linear_index_bijection [5, 0, 2]).2 0 3 (by decide) (by decide)).2

/-- A request for a duration class no existing bucket owns appends a fresh
bucket holding exactly the requested deadline and id. -/
theorem upsertRepaint_fresh (l : List (Nat × RepaintBunch)) (d setId w : Nat)
    (h : ∀ kb ∈ l, kb.1 ≠ d) :
    upsertRepaint l d setId w = l ++ [(d, { whenTime := w, ids := {setId} })] := by
  induction l with
  | nil => rfl
  | cons kb rest ih =>
    have hkb : kb.1 ≠ d := h kb (List.mem_cons_self kb rest)
    simp only [upsertRepaint, if_neg hkb, List.cons_append, List.cons.injEq,
      true_and]
    exact ih (fun x hx => h x (List.mem_cons_of_mem kb hx))

/-- A request for a duration class whose bucket sits past all other keys
updates that bucket in place: deadline `max`, id inserted. -/
theorem upsertRepaint_existing (l : List (Nat × RepaintBunch))
    (d setId w bw : Nat) (bids : Finset Nat) (h : ∀ kb ∈ l, kb.1 ≠ d) :
    upsertRepaint (l ++ [(d, ⟨bw, bids⟩)]) d setId w =
      l ++ [(d, ⟨max bw w, insert setId bids⟩)] := by
  induction l with
  | nil => simp [upsertRepaint]
  | cons kb rest ih =>
    have hkb : kb.1 ≠ d := h kb (List.mem_cons_self kb rest)
    simp only [List.cons_append, upsertRepaint, if_neg hkb, List.cons.injEq,
      true_and]
    exact ih (fun x hx => h x (List.mem_cons_of_mem kb hx))

/-- Looking up the deadline of a bucket appended past foreign keys. -/
theorem bunchWhen_append (l : List (Nat × RepaintBunch)) (d : Nat)
    (b : RepaintBunch) (h : ∀ kb ∈ l, kb.1 ≠ d) :
    bunchWhen (l ++ [(d, b)]) d = some b.whenTime := by
  induction l with
  | nil => simp [bunchWhen]
  | cons kb rest ih =>
    have hkb : kb.1 ≠ d := h kb (List.mem_cons_self kb rest)
    simp only [bunchWhen, List.cons_append, List.find?] at ih ⊢
    rw [decide_eq_false hkb]
    exact ih (fun x hx => h x (List.mem_cons_of_mem kb hx))

/-- The minimum fold of `scheduleRepaintTimer` computes a lower bound that
is attained, as long as every deadline is positive (0 being the "none"
sentinel). Stated over the fold with an arbitrary positive seed. -/
theorem minRepaintNext_foldl (l : List (Nat × RepaintBunch)) :
    ∀ acc, 0 < acc → (∀ kb ∈ l, 0 < kb.2.whenTime) →
    0 < l.foldl
        (fun next db => if next = 0 ∨ db.2.whenTime < next then db.2.whenTime else next)
        acc ∧
    l.foldl
        (fun next db => if next = 0 ∨ db.2.whenTime < next then db.2.whenTime else next)
        acc ≤ acc ∧
    (∀ kb ∈ l, l.foldl
        (fun next db => if next = 0 ∨ db.2.whenTime < next then db.2.whenTime else next)
        acc ≤ kb.2.whenTime) ∧
    (l.foldl
        (fun next db => if next = 0 ∨ db.2.whenTime < next then db.2.whenTime else next)
        acc = acc ∨
      ∃ kb ∈ l, l.foldl
        (fun next db => if next = 0 ∨ db.2.whenTime < next then db.2.whenTime else next)
        acc = kb.2.whenTime) := by
  induction l with
  | nil => intro acc hacc _; exact ⟨hacc, le_refl _, by simp, Or.inl rfl⟩
  | cons kb rest ih =>
    intro acc hacc hpos
    have hkb : 0 < kb.2.whenTime := hpos kb (List.mem_cons_self kb rest)
    have hrest : ∀ x ∈ rest, 0 < x.2.whenTime :=
      fun x hx => hpos x (List.mem_cons_of_mem kb hx)
    simp only [List.foldl_cons]
    by_cases hcond : acc = 0 ∨ kb.2.whenTime < acc
    · rw [if_pos hcond]
      obtain ⟨p1, p2, p3, p4⟩ := ih kb.2.whenTime hkb hrest
      refine ⟨p1, ?_, ?_, ?_⟩
      · have : kb.2.whenTime ≤ acc := by omega
        omega
      · intro x hx
        rcases List.mem_cons.1 hx with hx | hx
        · rw [hx]; exact p2
        · exact p3 x hx
      · rcases p4 with p4 | ⟨x, hx, hx2⟩
        · exact Or.inr ⟨kb, List.mem_cons_self kb rest, p4⟩
        · exact Or.inr ⟨x, List.mem_cons_of_mem kb hx, hx2⟩
    · rw [if_neg hcond]
      obtain ⟨p1, p2, p3, p4⟩ := ih acc hacc hrest
      refine ⟨p1, p2, ?_, ?_⟩
      · intro x hx
        rcases List.mem_cons.1 hx with hx | hx
        · rw [hx]; omega
        · exact p3 x hx
      · rcases p4 with p4 | ⟨x, hx, hx2⟩
        · exact Or.inl p4
        · exact Or.inr ⟨x, List.mem_cons_of_mem kb hx, hx2⟩

/-- A nonempty bucket list with positive deadlines has a positive, attained
minimum that bounds every bucket. -/
theorem minRepaintNext_spec (l : List (Nat × RepaintBunch)) (hne : l ≠ [])
    (hpos : ∀ kb ∈ l, 0 < kb.2.whenTime) :
    0 < minRepaintNext l ∧
    (∀ kb ∈ l, minRepaintNext l ≤ kb.2.whenTime) ∧
    (∃ kb ∈ l, minRepaintNext l = kb.2.whenTime) := by
  match l, hne with
  | kb :: rest, _ =>
    have hkb : 0 < kb.2.whenTime := hpos kb (List.mem_cons_self kb rest)
    have hrest : ∀ x ∈ rest, 0 < x.2.whenTime :=
      fun x hx => hpos x (List.mem_cons_of_mem kb hx)
    have hfirst :
        (if (0 : Nat) = 0 ∨ kb.2.whenTime < 0 then kb.2.whenTime else 0)
          = kb.2.whenTime := by simp
    obtain ⟨p1, p2, p3, p4⟩ := minRepaintNext_foldl rest kb.2.whenTime hkb hrest
    unfold minRepaintNext
    rw [List.foldl_cons, hfirst]
    refine ⟨p1, ?_, ?_⟩
    · intro x hx
      rcases List.mem_cons.1 hx with hx | hx
      · rw [hx]; exact p2
      · exact p3 x hx
    · rcases p4 with p4 | ⟨x, hx, hx2⟩
      · exact ⟨kb, List.mem_cons_self kb rest, p4⟩
      · exact ⟨x, List.mem_cons_of_mem kb hx, hx2⟩

/-- Request handling keeps `_repaintNext` untouched (only the posted
scheduling body moves it). -/
theorem repaintLater_repaintNext (st : CoalescerState) (setId dur w : Nat) :
    (repaintLater st setId dur w).repaintNext = st.repaintNext := by
  unfold repaintLater; split <;> rfl

/-- Request handling keeps `_instances` untouched. -/
theorem repaintLater_instancesEmpty (st : CoalescerState) (setId dur w : Nat) :
    (repaintLater st setId dur w).instancesEmpty = st.instancesEmpty := by
  unfold repaintLater; split <;> rfl

/-- Claim C2: for a fixed duration class, issuing repaint requests with
deadlines d1 < d2 < d3 in that order advances that class's bucket deadline
to d1, then d2, then d3 (the deadline never moves backward within its
unfired lifetime, being the max of the existing deadline and each request),
and a scheduling pass run before d3 arms the single timer exactly at the
minimum deadline across all pending duration classes (which is attained by
one of them and bounds them all) — with no other class pending, at d3
itself. -/
theorem C2_coalescer_monotonic (st0 : CoalescerState)
    (dur setId d1 d2 d3 : Nat)
    (hie : st0.instancesEmpty = false) (hrn : st0.repaintNext = 0)
    (h0 : 0 < d1) (h12 : d1 < d2) (h23 : d2 < d3)
    (hdur : ∀ kb ∈ st0.repaints, kb.1 ≠ dur)
    (hpos : ∀ kb ∈ st0.repaints, 0 < kb.2.whenTime) :
    bunchWhen (repaintLater st0 setId dur d1).repaints dur = some d1 ∧
    bunchWhen (repaintLater (repaintLater st0 setId dur d1)
      setId dur d2).repaints dur = some d2 ∧
    bunchWhen (repaintLater (repaintLater (repaintLater st0 setId dur d1)
      setId dur d2) setId dur d3).repaints dur = some d3 ∧
    (∀ kb ∈ (repaintLater (repaintLater (repaintLater st0 setId dur d1)
        setId dur d2) setId dur d3).repaints,
      minRepaintNext (repaintLater (repaintLater (repaintLater st0 setId dur d1)
        setId dur d2) setId dur d3).repaints ≤ kb.2.whenTime) ∧
    (∃ kb ∈ (repaintLater (repaintLater (repaintLater st0 setId dur d1)
        setId dur d2) setId dur d3).repaints,
      minRepaintNext (repaintLater (repaintLater (repaintLater st0 setId dur d1)
        setId dur d2) setId dur d3).repaints = kb.2.whenTime) ∧
    (∀ now, now < minRepaintNext (repaintLater (repaintLater (repaintLater st0
        setId dur d1) setId dur d2) setId dur d3).repaints →
      schedulePostponedBody (repaintLater (repaintLater (repaintLater st0
        setId dur d1) setId dur d2) setId dur d3) now =
      ({ repaintLater (repaintLater (repaintLater st0 setId dur d1)
          setId dur d2) setId dur d3 with
          scheduled := false
          repaintNext := minRepaintNext (repaintLater (repaintLater
            (repaintLater st0 setId dur d1) setId dur d2) setId dur d3).repaints
          timerDeadline := some (minRepaintNext (repaintLater (repaintLater
            (repaintLater st0 setId dur d1) setId dur d2)
            setId dur d3).repaints) }, false)) := by
  set s1 := repaintLater st0 setId dur d1 with hs1
  set s2 := repaintLater s1 setId dur d2 with hs2
  set s3 := repaintLater s2 setId dur d3 with hs3
  have hie1 : s1.instancesEmpty = false := by
    rw [hs1, repaintLater_instancesEmpty]; exact hie
  have hie2 : s2.instancesEmpty = false := by
    rw [hs2, repaintLater_instancesEmpty]; exact hie1
  have step : ∀ (s : CoalescerState) (w : Nat), s.instancesEmpty = false →
      (repaintLater s setId dur w).repaints = upsertRepaint s.repaints dur setId w := by
    intro s w hs
    simp [repaintLater, hs]
  have e1 : s1.repaints
      = st0.repaints ++ [(dur, ⟨d1, ({setId} : Finset Nat)⟩)] := by
    rw [hs1, step st0 d1 hie,
      upsertRepaint_fresh st0.repaints dur setId d1 hdur]
  obtain ⟨ids2, e2⟩ : ∃ ids, s2.repaints
      = st0.repaints ++ [(dur, ⟨d2, ids⟩)] := by
    refine ⟨insert setId {setId}, ?_⟩
    rw [hs2, step s1 d2 hie1, e1,
      upsertRepaint_existing st0.repaints dur setId d2 d1 {setId} hdur,
      Nat.max_eq_right (Nat.le_of_lt h12)]
  obtain ⟨ids3, e3⟩ : ∃ ids, s3.repaints
      = st0.repaints ++ [(dur, ⟨d3, ids⟩)] := by
    refine ⟨insert setId ids2, ?_⟩
    rw [hs3, step s2 d3 hie2, e2,
      upsertRepaint_existing st0.repaints dur setId d3 d2 ids2 hdur,
      Nat.max_eq_right (Nat.le_of_lt h23)]
  have hpos3 : ∀ kb ∈ s3.repaints, 0 < kb.2.whenTime := by
    rw [e3]
    intro kb hkb
    rcases List.mem_append.1 hkb with hkb | hkb
    · exact hpos kb hkb
    · simp only [List.mem_singleton] at hkb
      rw [hkb]
      show 0 < d3
      omega
  have hne3 : s3.repaints ≠ [] := by
    rw [e3]
    exact List.append_ne_nil_of_right_ne_nil _ (by simp)
  obtain ⟨m1, m2, m3⟩ := minRepaintNext_spec s3.repaints hne3 hpos3
  refine ⟨?_, ?_, ?_, m2, m3, ?_⟩
  · rw [e1]; exact bunchWhen_append st0.repaints dur _ hdur
  · rw [e2]; exact bunchWhen_append st0.repaints dur _ hdur
  · rw [e3]; exact bunchWhen_append st0.repaints dur _ hdur
  · intro now hnow
    have hrn3 : s3.repaintNext = 0 := by
      rw [hs3, repaintLater_repaintNext, hs2, repaintLater_repaintNext,
        hs1, repaintLater_repaintNext]
      exact hrn
    have hm0 : minRepaintNext s3.repaints ≠ 0 := by omega
    have hle : ¬ (minRepaintNext s3.repaints ≤ now) := by omega
    simp [schedulePostponedBody, hm0, hrn3, hle]

/-- Witness for C2: three same-class requests with deadlines 10 < 20 < 30
from an empty coalescer leave the class bucket at deadline 30, and a
scheduling pass at time 5 arms the single timer at 30. -/
theorem C2_coalescer_monotonic_witness :
    bunchWhen (repaintLater (repaintLater (repaintLater
      { instancesEmpty := false, repaints := [], repaintNext := 0,
        timerDeadline := none, scheduled := false } 7 1 10) 7 1 20)
      7 1 30).repaints 1 = some 30 ∧
    (schedulePostponedBody (repaintLater (repaintLater (repaintLater
      { instancesEmpty := false, repaints := [], repaintNext := 0,
        timerDeadline := none, scheduled := false } 7 1 10) 7 1 20)
      7 1 30) 5).1.timerDeadline = some 30 := by
  have h := C2_coalescer_monotonic
    { instancesEmpty := false, repaints := [], repaintNext := 0,
      timerDeadline := none, scheduled := false } 1 7 10 20 30
    rfl rfl (by decide) (by decide) (by decide)
    (by intro kb hkb; simp at hkb) (by intro kb hkb; simp at hkb)
  have hmin : minRepaintNext (repaintLater (repaintLater (repaintLater
      { instancesEmpty := false, repaints := [], repaintNext := 0,
        timerDeadline := none, scheduled := false } 7 1 10) 7 1 20)
      7 1 30).repaints = 30 := by rfl
  refine ⟨h.2.2.1, ?_⟩
  have := h.2.2.2.2.2 5 (by rw [hmin]; decide)
  rw [this, hmin]

/-- Claim C10: a delayed repaint request arriving while the instance
registry is empty is dropped entirely — the state (buckets, armed wake-up,
scheduling flag) is exactly as before, so no timer ever fires for it. -/
theorem C10_empty_instances_drop (st : CoalescerState) (setId dur w : Nat)
    (h : st.instancesEmpty = true) :
    repaintLater st setId dur w = st ∧
    (repaintLater st setId dur w).repaints = st.repaints ∧
    (repaintLater st setId dur w).scheduled = st.scheduled ∧
    (repaintLater st setId dur w).timerDeadline = st.timerDeadline := by
  have he : repaintLater st setId dur w = st := by simp [repaintLater, h]
  exact ⟨he, by rw [he], by rw [he], by rw [he]⟩

/-- Witness for C10 at a concrete empty-registry state. -/
theorem C10_empty_instances_drop_witness :
    repaintLater
      { instancesEmpty := true, repaints := [], repaintNext := 0,
        timerDeadline := none, scheduled := false } 5 16 100 =
      { instancesEmpty := true, repaints := [], repaintNext := 0,
        timerDeadline := none, scheduled := false } :=
  (C10_empty_instances_drop
    { instancesEmpty := true, repaints := [], repaintNext := 0,
      timerDeadline := none, scheduled := false } 5 16 100 rfl).1

/-- The erase loop keeps exactly the buckets whose deadline is still in the
future. -/
theorem collectDue_fst (l : List (Nat × RepaintBunch)) (now : Nat) :
    (collectDue l now).1 = l.filter (fun kb => decide (now < kb.2.whenTime)) := by
  induction l with
  | nil => rfl
  | cons kb rest ih =>
    obtain ⟨k, b⟩ := kb
    simp only [collectDue, List.filter]
    by_cases h : now < b.whenTime
    · simp only [if_pos h, decide_eq_true h, ih]
    · simp only [if_neg h, decide_eq_false h, ih]

/-- The erase loop returns exactly the union of the due buckets' id sets. -/
theorem collectDue_snd (l : List (Nat × RepaintBunch)) (now i : Nat) :
    i ∈ (collectDue l now).2 ↔
      ∃ kb ∈ l, kb.2.whenTime ≤ now ∧ i ∈ kb.2.ids := by
  induction l with
  | nil => simp [collectDue]
  | cons kb rest ih =>
    obtain ⟨k, b⟩ := kb
    simp only [collectDue]
    by_cases h : now < b.whenTime
    · rw [if_pos h]
      simp only [List.mem_cons]
      constructor
      · intro hi
        obtain ⟨x, hx, hx2⟩ := ih.1 hi
        exact ⟨x, Or.inr hx, hx2⟩
      · rintro ⟨x, hx | hx, hx2⟩
        · rw [hx] at hx2
          have hc : b.whenTime ≤ now := hx2.1
          omega
        · exact ih.2 ⟨x, hx, hx2⟩
    · rw [if_neg h]
      simp only [Finset.mem_union, List.mem_cons]
      constructor
      · rintro (hi | hi)
        · exact ⟨(k, b), Or.inl rfl, show b.whenTime ≤ now by omega, hi⟩
        · obtain ⟨x, hx, hx2⟩ := ih.1 hi
          exact ⟨x, Or.inr hx, hx2⟩
      · rintro ⟨x, hx | hx, hx2⟩
        · rw [hx] at hx2
          exact Or.inl hx2.2
        · exact Or.inr (ih.2 ⟨x, hx, hx2⟩)

/-- A rectangle is invalidated by `repaintCustom` exactly when it is the
rows region of a custom section whose set id passes the check. -/
theorem repaintCustom_mem (width : Nat) (customIds : List Nat)
    (checkId : Nat → Bool) (infos : List SectionInfo) (r : UpdateRect) :
    r ∈ repaintCustom width customIds checkId infos ↔
      ∃ info ∈ infos, kEmojiSectionCount ≤ info.sectionIdx ∧
        checkId (customIds.getD (info.sectionIdx - kEmojiSectionCount) 0) = true ∧
        r = { x := 0, y := info.rowsTop, w := width,
              h := info.rowsBottom - info.rowsTop } := by
  induction infos with
  | nil => simp [repaintCustom]
  | cons info rest ih =>
    simp only [repaintCustom]
    by_cases h : kEmojiSectionCount ≤ info.sectionIdx
        ∧ checkId (customIds.getD (info.sectionIdx - kEmojiSectionCount) 0)
    · rw [if_pos h]
      simp only [List.mem_cons]
      constructor
      · rintro (hr | hr)
        · exact ⟨info, Or.inl rfl, h.1, by simpa using h.2, hr⟩
        · obtain ⟨x, hx, hx2⟩ := ih.1 hr
          exact ⟨x, Or.inr hx, hx2⟩
      · rintro ⟨x, hx | hx, hx2⟩
        · rw [hx] at hx2
          exact Or.inl hx2.2.2
        · exact Or.inr (ih.2 ⟨x, hx, hx2⟩)
    · rw [if_neg h]
      rw [ih]
      constructor
      · rintro ⟨x, hx, hx2⟩
        exact ⟨x, List.mem_cons_of_mem info hx, hx2⟩
      · rintro ⟨x, hx, hx2⟩
        rcases List.mem_cons.1 hx with hx | hx
        · refine absurd ?_ h
          rw [hx] at hx2
          exact ⟨hx2.1, hx2.2.1⟩
        · exact ⟨x, hx, hx2⟩

/-- Claim C3, amended: firing the coalescer at time `now` removes exactly
the buckets whose deadline is at most `now` (later buckets stay pending
and a rescheduling pass is requested), unions exactly their pending id
sets, and invalidates exactly the rows regions of the custom sections
whose OWN set id lies in that union — not of every section referencing a
fired id through its items' shared renderable instances, as the original
claim asked (see `C3_counterexample_shared_repaint`). -/
theorem C3_invoke_repaints_amended (st : CoalescerState) (now : Nat)
    (g : GridStyle) (width : Nat) (counts : List Nat)
    (custom : List CustomSet) :
    (invokeRepaints st now).1.repaints
        = st.repaints.filter (fun kb => decide (now < kb.2.whenTime)) ∧
    (∀ i, i ∈ (invokeRepaints st now).2 ↔
      ∃ kb ∈ st.repaints, kb.2.whenTime ≤ now ∧ i ∈ kb.2.ids) ∧
    (invokeRepaints st now).1.repaintNext = 0 ∧
    (invokeRepaints st now).1.scheduled = true ∧
    (∀ r, r ∈ repaintCustom width (custom.map (fun c => c.id))
        (fun i => decide (i ∈ (invokeRepaints st now).2))
        (sectionInfos g (counts ++ custom.map (fun c => c.list.length))) ↔
      ∃ info ∈ sectionInfos g (counts ++ custom.map (fun c => c.list.length)),
        kEmojiSectionCount ≤ info.sectionIdx ∧
        (∃ kb ∈ st.repaints, kb.2.whenTime ≤ now ∧
          (custom.map (fun c => c.id)).getD
            (info.sectionIdx - kEmojiSectionCount) 0 ∈ kb.2.ids) ∧
        r = { x := 0, y := info.rowsTop, w := width,
              h := info.rowsBottom - info.rowsTop }) := by
  refine ⟨?_, ?_, rfl, rfl, ?_⟩
  · show (collectDue st.repaints now).1 = _
    exact collectDue_fst st.repaints now
  · intro i
    show i ∈ (collectDue st.repaints now).2 ↔ _
    exact collectDue_snd st.repaints now i
  · intro r
    rw [repaintCustom_mem]
    constructor
    · rintro ⟨info, hinfo, h1, h2, h3⟩
      refine ⟨info, hinfo, h1, ?_, h3⟩
      exact (collectDue_snd st.repaints now _).1 (of_decide_eq_true h2)
    · rintro ⟨info, hinfo, h1, h2, h3⟩
      refine ⟨info, hinfo, h1, ?_, h3⟩
      exact decide_eq_true ((collectDue_snd st.repaints now _).2 h2)

/-- Witness for C3: two buckets with deadlines 10 and 50, fired at time 20:
the deadline-10 bucket is removed with its id 5 in the union, the
deadline-50 bucket stays, and the single custom section (set id 5) has its
rows region invalidated. -/
theorem C3_invoke_repaints_amended_witness :
    (invokeRepaints
      { instancesEmpty := false,
        repaints := [(1, ⟨10, {5}⟩), (2, ⟨50, {6}⟩)],
        repaintNext := 10, timerDeadline := some 10, scheduled := false }
      20).1.repaints = [(2, ⟨50, {6}⟩)] ∧
    (5 ∈ (invokeRepaints
      { instancesEmpty := false,
        repaints := [(1, ⟨10, {5}⟩), (2, ⟨50, {6}⟩)],
        repaintNext := 10, timerDeadline := some 10, scheduled := false }
      20).2) := by
  have h := C3_invoke_repaints_amended
    { instancesEmpty := false,
      repaints := [(1, ⟨10, {5}⟩), (2, ⟨50, {6}⟩)],
      repaintNext := 10, timerDeadline := some 10, scheduled := false }
    20 { emojiPanPadding := 1, emojiPanHeader := 2, singleW := 3, singleH := 3,
         rowsLeft := 0, columnCount := 1 } 90 [0, 0, 0, 0, 0, 0, 0, 0]
    [{ id := 5, title := 0, list := [{ document := 9 }], painted := true }]
  constructor
  · rw [h.1]; decide
  · exact (h.2.1 5).2 ⟨(1, ⟨10, {5}⟩), by decide, by decide, by decide⟩

/-- Counterexample to claim C3 as stated: with the registry built by
refreshing `setA` (id 1) and then `setB` (id 2), document 42's shared
instance carries repaint id 1 in its closures, so `setB` references the
fired id 1 in the claim's sense; yet firing the bucket at time 20
invalidates only set A's rows region (rows 9..10) and not set B's (rows
11..12): `repaintCustom` consults the section's own set id, never its
items' instances. -/
theorem C3_counterexample_shared_repaint :
    sectionReferencesSpec sharedRepaintIds setB
      (invokeRepaints bucketStateA 20).2 ∧
    ((sectionInfos unitGrid
      ([0, 0, 0, 0, 0, 0, 0, 0]
        ++ [setA, setB].map (fun c => c.list.length))).getD
        9 default).rowsTop = 11 ∧
    ((sectionInfos unitGrid
      ([0, 0, 0, 0, 0, 0, 0, 0]
        ++ [setA, setB].map (fun c => c.list.length))).getD
        9 default).rowsBottom = 12 ∧
    repaintCustom 90 ([setA, setB].map (fun c => c.id))
        (fun i => decide (i ∈ (invokeRepaints bucketStateA 20).2))
        (sectionInfos unitGrid
          ([0, 0, 0, 0, 0, 0, 0, 0]
            ++ [setA, setB].map (fun c => c.list.length)))
      = [{ x := 0, y := 9, w := 90, h := 1 }] := by
  refine ⟨?_, by decide, by decide, by decide⟩
  exact ⟨{ document := 42 }, by decide, 1, by decide, by decide⟩

/-- Claim C9: while an overlay target is set (`_pickerSel >= 0`) or a press
is active (`_pressedSel >= 0`), recomputing the hovered selection is a
no-op, and no pointer move changes the stored grid selection. -/
theorem C9_hover_suspended (st : EmojiListState)
    (h : 0 ≤ st.pressedSel ∨ 0 ≤ st.pickerSel) :
    updateSelected st = st ∧
    ∀ (ps : PickerStyle) (globalPos : Int × Int),
      (mouseMoveEvent ps st globalPos).selected = st.selected := by
  have hupd : ∀ (st' : EmojiListState),
      st'.pressedSel = st.pressedSel → st'.pickerSel = st.pickerSel →
      updateSelected st' = st' := by
    intro st' h1 h2
    unfold updateSelected
    rw [if_pos]
    rw [h1, h2]
    exact h
  refine ⟨hupd st rfl rfl, ?_⟩
  intro ps globalPos
  by_cases h1 : st.picker.hidden
  · have he := hupd { st with lastMousePos := globalPos } rfl rfl
    simp [mouseMoveEvent, h1, he]
  · by_cases h2 : pickerContains ps st.pickerPos st.picker globalPos
    · simp [mouseMoveEvent, h1, h2]
    · have he := hupd
        { st with
          lastMousePos := globalPos
          picker := pickerClearSelection st.pickerPos st.picker } rfl rfl
      simp [mouseMoveEvent, h1, h2, he]

/-- Witness for C9: a state with an active press at linear index 2 keeps
its selection through a selection recompute and a pointer move. -/
theorem C9_hover_suspended_witness :
    updateSelected { sampleState with pressedSel := 2, selected := 2 }
      = { sampleState with pressedSel := 2, selected := 2 } ∧
    (mouseMoveEvent sampleStyle
      { sampleState with pressedSel := 2, selected := 2 } (37, 5)).selected
      = ({ sampleState with pressedSel := 2, selected := 2 }
          : EmojiListState).selected := by
  have h := C9_hover_suspended
    { sampleState with pressedSel := 2, selected := 2 } (Or.inl (by decide))
  exact ⟨h.1, h.2 sampleStyle (37, 5)⟩

/-- Unloading one instance clears exactly its registry entry. -/
theorem instancesFind_setUnloaded (ins : Instances) (d doc : Nat) :
    instancesFind (setUnloaded ins d) doc =
      if doc = d then (instancesFind ins doc).map (fun _ => false)
      else instancesFind ins doc := by
  induction ins with
  | nil => by_cases h : doc = d <;> simp [setUnloaded, instancesFind, h]
  | cons e rest ih =>
    obtain ⟨k, v⟩ := e
    show instancesFind
      ((if k = d then (k, false) else (k, v)) :: setUnloaded rest d) doc = _
    by_cases hk : k = doc
    · subst hk
      by_cases hd : k = d
      · subst hd
        simp [instancesFind, List.find?]
      · simp [instancesFind, List.find?, hd]
    · by_cases hd : k = d
      · subst hd
        simpa [instancesFind, List.find?, hk] using ih
      · simpa [instancesFind, List.find?, hk, hd] using ih

/-- Unloading every item of a set clears exactly the registry entries of
the set's documents. -/
theorem instancesFind_unloadCustomSet (c : CustomSet) :
    ∀ (ins : Instances) (doc : Nat),
    instancesFind (unloadCustomSet ins c) doc =
      if doc ∈ sectionDocs c then (instancesFind ins doc).map (fun _ => false)
      else instancesFind ins doc := by
  show ∀ (ins : Instances) (doc : Nat),
    instancesFind (c.list.foldl (fun acc single => setUnloaded acc single.document) ins) doc = _
  rw [show sectionDocs c = c.list.map (fun s => s.document) from rfl]
  induction c.list with
  | nil => intro ins doc; simp
  | cons single rest ih =>
    intro ins doc
    simp only [List.foldl_cons, List.map_cons, List.mem_cons]
    rw [ih]
    by_cases h1 : doc = single.document
    · by_cases h2 : doc ∈ rest.map (fun s => s.document)
      · rw [if_pos h2, if_pos (Or.inl h1), instancesFind_setUnloaded,
          if_pos h1, Option.map_map]
        rfl
      · rw [if_neg h2, if_pos (Or.inl h1), instancesFind_setUnloaded,
          if_pos h1]
    · by_cases h2 : doc ∈ rest.map (fun s => s.document)
      · rw [if_pos h2, if_pos (Or.inr h2), instancesFind_setUnloaded,
          if_neg h1]
      · rw [if_neg h2, instancesFind_setUnloaded, if_neg h1,
          if_neg (by tauto)]

/-- One unfolding step of the virtualizer's walk over the custom sets. -/
theorem unloadNotSeenAux_cons (infos : List SectionInfo) (vT vB k : Nat)
    (c : CustomSet) (rest : List CustomSet) (ins : Instances) :
    unloadNotSeenAux infos vT vB k (c :: rest) ins =
      if rowsIntersect (infos.getD (kEmojiSectionCount + k) default) vT vB then
        (c :: (unloadNotSeenAux infos vT vB (k + 1) rest ins).1,
          (unloadNotSeenAux infos vT vB (k + 1) rest ins).2)
      else if c.painted then
        ({ c with painted := false } ::
            (unloadNotSeenAux infos vT vB (k + 1) rest
              (unloadCustomSet ins c)).1,
          (unloadNotSeenAux infos vT vB (k + 1) rest
            (unloadCustomSet ins c)).2)
      else
        (c :: (unloadNotSeenAux infos vT vB (k + 1) rest ins).1,
          (unloadNotSeenAux infos vT vB (k + 1) rest ins).2) := rfl

/-- The custom-set list after a virtualizer pass: same length, and a
section is rewritten (painted flag cleared) exactly when its rows do not
intersect the visible range while its painted flag was set. -/
theorem unloadNotSeenAux_fst (infos : List SectionInfo) (vT vB : Nat) :
    ∀ (custom : List CustomSet) (k : Nat) (ins : Instances),
    (unloadNotSeenAux infos vT vB k custom ins).1.length = custom.length ∧
    (∀ j, j < custom.length →
      (unloadNotSeenAux infos vT vB k custom ins).1.getD j default =
        if ¬ rowsIntersect (infos.getD (kEmojiSectionCount + (k + j)) default)
              vT vB
            ∧ (custom.getD j default).painted = true
        then { custom.getD j default with painted := false }
        else custom.getD j default) := by
  intro custom
  induction custom with
  | nil =>
    intro k ins
    exact ⟨rfl, by intro j hj; simp at hj⟩
  | cons c rest ih =>
    intro k ins
    rw [unloadNotSeenAux_cons]
    by_cases h1 : rowsIntersect (infos.getD (kEmojiSectionCount + k) default)
        vT vB
    · rw [if_pos h1]
      refine ⟨by simp [(ih (k + 1) ins).1], ?_⟩
      intro j hj
      cases j with
      | zero =>
        simp only [List.getD_cons_zero, Nat.add_zero]
        rw [if_neg (by tauto)]
      | succ j =>
        simp only [List.getD_cons_succ]
        have harith : k + (j + 1) = (k + 1) + j := by omega
        rw [harith]
        exact (ih (k + 1) ins).2 j (by simpa using hj)
    · rw [if_neg h1]
      by_cases h2 : c.painted
      · rw [if_pos h2]
        refine ⟨by simp [(ih (k + 1) (unloadCustomSet ins c)).1], ?_⟩
        intro j hj
        cases j with
        | zero =>
          simp only [List.getD_cons_zero, Nat.add_zero]
          rw [if_pos ⟨h1, h2⟩]
        | succ j =>
          simp only [List.getD_cons_succ]
          have harith : k + (j + 1) = (k + 1) + j := by omega
          rw [harith]
          exact (ih (k + 1) (unloadCustomSet ins c)).2 j (by simpa using hj)
      · rw [if_neg h2]
        refine ⟨by simp [(ih (k + 1) ins).1], ?_⟩
        intro j hj
        cases j with
        | zero =>
          simp only [List.getD_cons_zero, Nat.add_zero]
          rw [if_neg (by tauto)]
        | succ j =>
          simp only [List.getD_cons_succ]
          have harith : k + (j + 1) = (k + 1) + j := by omega
          rw [harith]
          exact (ih (k + 1) ins).2 j (by simpa using hj)

/-- The registry after a virtualizer pass: an instance is cleared exactly
when its document occurs in some custom section that the pass stripped
(rows outside the visible range, painted flag set); every other entry keeps
its state. -/
theorem unloadNotSeenAux_snd (infos : List SectionInfo) (vT vB : Nat) :
    ∀ (custom : List CustomSet) (k : Nat) (ins : Instances) (doc : Nat),
    ((∃ j, j < custom.length ∧
        ¬ rowsIntersect (infos.getD (kEmojiSectionCount + (k + j)) default)
            vT vB ∧
        (custom.getD j default).painted = true ∧
        doc ∈ sectionDocs (custom.getD j default)) →
      instancesFind (unloadNotSeenAux infos vT vB k custom ins).2 doc
        = (instancesFind ins doc).map (fun _ => false)) ∧
    ((¬ ∃ j, j < custom.length ∧
        ¬ rowsIntersect (infos.getD (kEmojiSectionCount + (k + j)) default)
            vT vB ∧
        (custom.getD j default).painted = true ∧
        doc ∈ sectionDocs (custom.getD j default)) →
      instancesFind (unloadNotSeenAux infos vT vB k custom ins).2 doc
        = instancesFind ins doc) := by
  intro custom
  induction custom with
  | nil =>
    intro k ins doc
    constructor
    · rintro ⟨j, hj, -⟩
      simp at hj
    · intro _
      rfl
  | cons c rest ih =>
    intro k ins doc
    have hshift : ∀ (j : Nat),
        (kEmojiSectionCount + (k + (j + 1))) = (kEmojiSectionCount + ((k + 1) + j)) := by
      intro j; omega
    rw [unloadNotSeenAux_cons]
    by_cases h1 : rowsIntersect (infos.getD (kEmojiSectionCount + k) default)
        vT vB
    · rw [if_pos h1]
      constructor
      · rintro ⟨j, hj, hni, hp, hd⟩
        cases j with
        | zero =>
          rw [Nat.add_zero] at hni
          exact absurd h1 hni
        | succ j =>
          refine (ih (k + 1) ins doc).1 ⟨j, by simpa using hj, ?_, ?_, ?_⟩
          · rw [← hshift j]; exact hni
          · simpa using hp
          · simpa using hd
      · intro hne
        refine (ih (k + 1) ins doc).2 ?_
        rintro ⟨j, hj, hni, hp, hd⟩
        refine hne ⟨j + 1, by simpa using hj, ?_, by simpa using hp,
          by simpa using hd⟩
        rw [hshift j]; exact hni
    · rw [if_neg h1]
      by_cases h2 : c.painted
      · rw [if_pos h2]
        by_cases hdoc : doc ∈ sectionDocs c
        · have hbase : instancesFind (unloadCustomSet ins c) doc
              = (instancesFind ins doc).map (fun _ => false) := by
            rw [instancesFind_unloadCustomSet c ins doc, if_pos hdoc]
          constructor
          · intro _
            by_cases hrest : ∃ j, j < rest.length ∧
                ¬ rowsIntersect
                  (infos.getD (kEmojiSectionCount + ((k + 1) + j)) default)
                  vT vB ∧
                (rest.getD j default).painted = true ∧
                doc ∈ sectionDocs (rest.getD j default)
            · rw [(ih (k + 1) (unloadCustomSet ins c) doc).1 hrest, hbase,
                Option.map_map]
              rfl
            · rw [(ih (k + 1) (unloadCustomSet ins c) doc).2 hrest, hbase]
          · intro hne
            exact absurd ⟨0, by simp, by simpa using h1, by simpa using h2,
              by simpa using hdoc⟩ hne
        · have hbase : instancesFind (unloadCustomSet ins c) doc
              = instancesFind ins doc := by
            rw [instancesFind_unloadCustomSet c ins doc, if_neg hdoc]
          constructor
          · rintro ⟨j, hj, hni, hp, hd⟩
            cases j with
            | zero =>
              exact absurd (by simpa using hd) hdoc
            | succ j =>
              rw [(ih (k + 1) (unloadCustomSet ins c) doc).1
                ⟨j, by simpa using hj, by rw [← hshift j]; exact hni,
                  by simpa using hp, by simpa using hd⟩, hbase]
          · intro hne
            rw [(ih (k + 1) (unloadCustomSet ins c) doc).2 ?_, hbase]
            rintro ⟨j, hj, hni, hp, hd⟩
            refine hne ⟨j + 1, by simpa using hj, ?_, by simpa using hp,
              by simpa using hd⟩
            rw [hshift j]; exact hni
      · rw [if_neg h2]
        constructor
        · rintro ⟨j, hj, hni, hp, hd⟩
          cases j with
          | zero =>
            exact absurd (by simpa using hp) h2
          | succ j =>
            exact (ih (k + 1) ins doc).1
              ⟨j, by simpa using hj, by rw [← hshift j]; exact hni,
                by simpa using hp, by simpa using hd⟩
        · intro hne
          refine (ih (k + 1) ins doc).2 ?_
          rintro ⟨j, hj, hni, hp, hd⟩
          refine hne ⟨j + 1, by simpa using hj, ?_, by simpa using hp,
            by simpa using hd⟩
          rw [hshift j]; exact hni

/-- Counterexample to claim C4 as stated: renderable instances are shared
across sets through the registry keyed by document id, so a visibility
update is not guaranteed to leave intersecting sections completely
untouched. With `setA` (not intersecting the visible range [11, 12),
painted) and `setB` (intersecting) both referencing document 42, the update
unloads 42 — `setB`'s own entry survives, but its only item's
decoded/animation state is gone. -/
theorem C4_counterexample_shared_instance :
    rowsIntersect ((sectionInfos unitGrid
      ([0, 0, 0, 0, 0, 0, 0, 0]
        ++ [setA, setB].map (fun c => c.list.length))).getD 9 default)
      11 12 ∧
    (unloadNotSeenCustom unitGrid [0, 0, 0, 0, 0, 0, 0, 0] [setA, setB]
      [(42, true)] 11 12).1.getD 1 default = setB ∧
    sectionDocs setB = [42] ∧
    instancesFind [(42, true)] 42 = some true ∧
    instancesFind (unloadNotSeenCustom unitGrid [0, 0, 0, 0, 0, 0, 0, 0]
      [setA, setB] [(42, true)] 11 12).2 42 = some false := by
  decide

/-- Claim C4 (amended): a visibility update clears the painted flag of
exactly the custom sections whose rows do not intersect the visible range
while painted, leaving every other section entry unchanged (built-in state
is not consulted at all); an item's renderable instance is unloaded exactly
when its document occurs in some stripped section — in particular an
intersecting section's item loses its decoded state when it shares its
document with a stripped section, the one departure from the claim as
stated. -/
theorem C4_unload_not_seen_amended (g : GridStyle) (counts : List Nat)
    (custom : List CustomSet) (ins : Instances) (vT vB : Nat) :
    (unloadNotSeenCustom g counts custom ins vT vB).1.length
        = custom.length ∧
    (∀ j, j < custom.length →
      (unloadNotSeenCustom g counts custom ins vT vB).1.getD j default =
        if ¬ rowsIntersect ((sectionInfos g (counts
              ++ custom.map (fun c => c.list.length))).getD
              (kEmojiSectionCount + j) default) vT vB
            ∧ (custom.getD j default).painted = true
        then { custom.getD j default with painted := false }
        else custom.getD j default) ∧
    (∀ doc, (∃ j, j < custom.length ∧
        ¬ rowsIntersect ((sectionInfos g (counts
            ++ custom.map (fun c => c.list.length))).getD
            (kEmojiSectionCount + j) default) vT vB ∧
        (custom.getD j default).painted = true ∧
        doc ∈ sectionDocs (custom.getD j default)) →
      instancesFind (unloadNotSeenCustom g counts custom ins vT vB).2 doc
        = (instancesFind ins doc).map (fun _ => false)) ∧
    (∀ doc, (¬ ∃ j, j < custom.length ∧
        ¬ rowsIntersect ((sectionInfos g (counts
            ++ custom.map (fun c => c.list.length))).getD
            (kEmojiSectionCount + j) default) vT vB ∧
        (custom.getD j default).painted = true ∧
        doc ∈ sectionDocs (custom.getD j default)) →
      instancesFind (unloadNotSeenCustom g counts custom ins vT vB).2 doc
        = instancesFind ins doc) := by
  have hfst := unloadNotSeenAux_fst
    (sectionInfos g (counts ++ custom.map (fun c => c.list.length))) vT vB
    custom 0 ins
  have hsnd := fun doc => unloadNotSeenAux_snd
    (sectionInfos g (counts ++ custom.map (fun c => c.list.length))) vT vB
    custom 0 ins doc
  refine ⟨hfst.1, ?_, ?_, ?_⟩
  · intro j hj
    have := hfst.2 j hj
    rw [Nat.zero_add] at this
    exact this
  · intro doc hex
    refine (hsnd doc).1 ?_
    obtain ⟨j, hj, h2, h3, h4⟩ := hex
    exact ⟨j, hj, by rw [Nat.zero_add]; exact h2, h3, h4⟩
  · intro doc hne
    refine (hsnd doc).2 ?_
    rintro ⟨j, hj, h2, h3, h4⟩
    exact hne ⟨j, hj, by rw [Nat.zero_add] at h2; exact h2, h3, h4⟩

/-- Witness for the amended C4 at the shared-document scenario: the
non-visible painted set is stripped, the visible set's entry is unchanged,
and the shared instance is unloaded. -/
theorem C4_unload_not_seen_amended_witness :
    (unloadNotSeenCustom unitGrid [0, 0, 0, 0, 0, 0, 0, 0] [setA, setB]
      [(42, true)] 11 12).1.length = 2 ∧
    (unloadNotSeenCustom unitGrid [0, 0, 0, 0, 0, 0, 0, 0] [setA, setB]
      [(42, true)] 11 12).1.getD 0 default = { setA with painted := false } ∧
    instancesFind (unloadNotSeenCustom unitGrid [0, 0, 0, 0, 0, 0, 0, 0]
      [setA, setB] [(42, true)] 11 12).2 42 = some false := by
  have h := C4_unload_not_seen_amended unitGrid [0, 0, 0, 0, 0, 0, 0, 0]
    [setA, setB] [(42, true)] 11 12
  refine ⟨h.1, ?_, ?_⟩
  · rw [h.2.1 0 (by decide)]
    decide
  · rw [h.2.2.1 42 ⟨0, by decide, by decide, by decide, by decide⟩]
    decide

/-- The item list a fresh build produces does not depend on the registry:
one item per sticker document, in order. -/
theorem buildSet_fst (sticker : Nat → Bool) :
    ∀ (docs : List Nat) (ins : Instances),
    (buildSet sticker docs ins).1 = freshList sticker docs := by
  intro docs
  induction docs with
  | nil => intro ins; rfl
  | cons doc rest ih =>
    intro ins
    by_cases h : sticker doc
    · simp only [buildSet, freshList, List.filter_cons, h, if_pos,
        List.map_cons]
      rw [show freshList sticker rest = (rest.filter sticker).map
        (fun d => { document := d }) from rfl] at ih
      split <;> simp [ih]
    · simp only [buildSet, freshList, List.filter_cons, h, Bool.false_eq_true,
        if_false]
      exact ih ins

/-- A lookup that succeeds still succeeds with the same value past an
append. -/
theorem instancesFind_append_some (ins : Instances) (l2 : Instances)
    (doc : Nat) (b : Bool) (h : instancesFind ins doc = some b) :
    instancesFind (ins ++ l2) doc = some b := by
  induction ins with
  | nil => simp [instancesFind] at h
  | cons e rest ih =>
    obtain ⟨k, v⟩ := e
    by_cases hk : k = doc
    · simpa [instancesFind, List.find?, hk] using
        (by simpa [instancesFind, List.find?, hk] using h : v = b)
    · simp only [instancesFind, List.cons_append, List.find?,
        decide_eq_false hk] at h ⊢
      exact ih h

/-- A lookup that fails on the left half continues into the appended
entries. -/
theorem instancesFind_append_none (ins : Instances) (l2 : Instances)
    (doc : Nat) (h : instancesFind ins doc = none) :
    instancesFind (ins ++ l2) doc = instancesFind l2 doc := by
  induction ins with
  | nil => rfl
  | cons e rest ih =>
    obtain ⟨k, v⟩ := e
    by_cases hk : k = doc
    · simp [instancesFind, List.find?, hk] at h
    · simp only [instancesFind, List.cons_append, List.find?,
        decide_eq_false hk] at h ⊢
      exact ih h

/-- A fresh build only appends missing entries: every existing registry
entry keeps its state. -/
theorem buildSet_preserves (sticker : Nat → Bool) :
    ∀ (docs : List Nat) (ins : Instances) (doc : Nat) (b : Bool),
    instancesFind ins doc = some b →
    instancesFind (buildSet sticker docs ins).2 doc = some b := by
  intro docs
  induction docs with
  | nil => intro ins doc b h; exact h
  | cons d rest ih =>
    intro ins doc b h
    by_cases hs : sticker d
    · simp only [buildSet, hs, if_pos]
      split
      · exact ih ins doc b h
      · exact ih (ins ++ [(d, false)]) doc b
          (instancesFind_append_some ins [(d, false)] doc b h)
    · simp only [buildSet, hs, Bool.false_eq_true, if_false]
      exact ih ins doc b h

/-- A fresh build leaves every sticker document with a registry entry
(looked up when present, created when absent). -/
theorem buildSet_creates (sticker : Nat → Bool) :
    ∀ (docs : List Nat) (ins : Instances) (d : Nat),
    d ∈ docs → sticker d = true →
    ∃ b, instancesFind (buildSet sticker docs ins).2 d = some b := by
  intro docs
  induction docs with
  | nil => intro ins d h hs; simp at h
  | cons doc rest ih =>
    intro ins d hmem hs
    by_cases hsd : sticker doc
    · simp only [buildSet, hsd, if_pos]
      rcases List.mem_cons.1 hmem with hd | hd
      · subst hd
        cases hfind : instancesFind ins d with
        | none =>
          simp only [hfind]
          have hin : instancesFind (ins ++ [(d, false)]) d = some false := by
            rw [instancesFind_append_none ins [(d, false)] d hfind]
            simp [instancesFind, List.find?]
          exact ⟨false, buildSet_preserves sticker rest
            (ins ++ [(d, false)]) d false hin⟩
        | some b =>
          simp only [hfind]
          exact ⟨b, buildSet_preserves sticker rest ins d b hfind⟩
      · split
        · exact ih ins d hd hs
        · exact ih (ins ++ [(doc, false)]) d hd hs
    · simp only [buildSet, hsd, Bool.false_eq_true, if_false]
      rcases List.mem_cons.1 hmem with hd | hd
      · subst hd
        exact absurd hs hsd
      · exact ih ins d hd hs

/-- Taking out (defaulting) the prior set of one identifier does not change
what a search for a different nonzero identifier finds (a moved-from set is
left with identifier 0). -/
theorem findCustom_takeCustom (old : List CustomSet) (a b : Nat)
    (hb : b ≠ 0) (hab : a ≠ b) :
    findCustom (takeCustom old a) b = findCustom old b := by
  induction old with
  | nil => rfl
  | cons c rest ih =>
    by_cases hca : c.id = a
    · have hcb : ¬ c.id = b := by omega
      have hdb : ¬ (default : CustomSet).id = b := by
        show ¬ (0 : Nat) = b
        omega
      simp only [takeCustom, if_pos hca, findCustom, List.find?,
        decide_eq_false hcb, decide_eq_false hdb]
    · simp only [takeCustom, if_neg hca, findCustom, List.find?]
      by_cases hcb : c.id = b
      · simp [decide_eq_true hcb]
      · simp only [decide_eq_false hcb]
        exact ih

/-- The custom list a refresh produces, described per catalog identifier
against the original prior list: the take-out bookkeeping is invisible as
long as the catalog order has no duplicate and no zero identifier. -/
theorem refreshCustomAux_fst (sticker : Nat → Bool)
    (sets : Nat → Option (Nat × List Nat)) :
    ∀ (order : List Nat) (old : List CustomSet) (ins : Instances),
    (∀ s ∈ order, s ≠ 0) → order.Nodup →
    (refreshCustomAux sticker sets order old ins).1
      = order.filterMap (refreshSpecOne sticker sets old) := by
  intro order
  induction order with
  | nil => intro old ins _ _; rfl
  | cons setId rest ih =>
    intro old ins h0 hnodup
    have h0r : ∀ s ∈ rest, s ≠ 0 := fun s hs => h0 s (List.mem_cons_of_mem _ hs)
    have hnr : rest.Nodup := (List.nodup_cons.1 hnodup).2
    have hnotin : setId ∉ rest := (List.nodup_cons.1 hnodup).1
    simp only [refreshCustomAux, List.filterMap_cons]
    cases hset : sets setId with
    | none =>
      simp only [refreshSpecOne, hset]
      exact ih old ins h0r hnr
    | some td =>
      obtain ⟨title, docs⟩ := td
      by_cases hd : docs = []
      · simp only [refreshSpecOne, hset, if_pos hd]
        exact ih old ins h0r hnr
      · simp only [refreshSpecOne, hset, if_neg hd]
        cases hfind : findCustom old setId with
        | none =>
          simp only [buildSet_fst sticker docs ins]
          rw [ih old (buildSet sticker docs ins).2 h0r hnr]
        | some c =>
          by_cases hvalid : validReuse c docs
          · simp only [hvalid, if_pos]
            rw [ih (takeCustom old setId) ins h0r hnr]
            congr 1
            apply List.filterMap_congr
            intro s hs
            have hs0 : s ≠ 0 := h0r s hs
            have hss : setId ≠ s := fun he => hnotin (he ▸ hs)
            simp only [refreshSpecOne,
              findCustom_takeCustom old setId s hs0 hss]
          · simp only [hvalid, Bool.false_eq_true, if_false]
            simp only [buildSet_fst sticker docs ins]
            rw [ih old (buildSet sticker docs ins).2 h0r hnr]

/-- The registry a refresh produces: existing entries keep their state, and
every sticker document of a freshly built set (one whose identifier finds
no content-identical prior set) ends up with an entry. -/
theorem refreshCustomAux_registry (sticker : Nat → Bool)
    (sets : Nat → Option (Nat × List Nat)) :
    ∀ (order : List Nat) (old : List CustomSet) (ins : Instances),
    (∀ s ∈ order, s ≠ 0) → order.Nodup →
    (∀ doc b, instancesFind ins doc = some b →
      instancesFind (refreshCustomAux sticker sets order old ins).2 doc
        = some b) ∧
    (∀ setId ∈ order, ∀ title docs, sets setId = some (title, docs) →
      docs ≠ [] →
      (∀ c, findCustom old setId = some c → validReuse c docs = false) →
      ∀ d ∈ docs, sticker d = true →
      ∃ b, instancesFind (refreshCustomAux sticker sets order old ins).2 d
        = some b) := by
  intro order
  induction order with
  | nil =>
    intro old ins _ _
    exact ⟨fun doc b h => h, fun setId hs => absurd hs (by simp)⟩
  | cons setId rest ih =>
    intro old ins h0 hnodup
    have h0r : ∀ s ∈ rest, s ≠ 0 := fun s hs => h0 s (List.mem_cons_of_mem _ hs)
    have hnr : rest.Nodup := (List.nodup_cons.1 hnodup).2
    have hnotin : setId ∉ rest := (List.nodup_cons.1 hnodup).1
    cases hset : sets setId with
    | none =>
      simp only [refreshCustomAux, hset]
      refine ⟨(ih old ins h0r hnr).1, ?_⟩
      intro s hs title docs hsets hdocs hfresh d hd hstick
      rcases List.mem_cons.1 hs with hs | hs
      · rw [hs] at hsets
        rw [hsets] at hset
        cases hset
      · exact (ih old ins h0r hnr).2 s hs title docs hsets hdocs hfresh d hd
          hstick
    | some td =>
      obtain ⟨title0, docs0⟩ := td
      simp only [refreshCustomAux, hset]
      by_cases hd0 : docs0 = []
      · rw [if_pos hd0]
        refine ⟨(ih old ins h0r hnr).1, ?_⟩
        intro s hs title docs hsets hdocs hfresh d hd hstick
        rcases List.mem_cons.1 hs with hs | hs
        · rw [hs] at hsets
          rw [hsets] at hset
          cases hset
          exact absurd hd0 hdocs
        · exact (ih old ins h0r hnr).2 s hs title docs hsets hdocs hfresh d
            hd hstick
      · rw [if_neg hd0]
        cases hfind : findCustom old setId with
        | none =>
          refine ⟨?_, ?_⟩
          · intro doc b h
            exact (ih old (buildSet sticker docs0 ins).2 h0r hnr).1 doc b
              (buildSet_preserves sticker docs0 ins doc b h)
          · intro s hs title docs hsets hdocs hfresh d hd hstick
            rcases List.mem_cons.1 hs with hs | hs
            · rw [hs] at hsets
              rw [hsets] at hset
              cases hset
              obtain ⟨b, hb⟩ := buildSet_creates sticker docs0 ins d hd hstick
              exact ⟨b, (ih old (buildSet sticker docs0 ins).2 h0r hnr).1 d b
                hb⟩
            · exact (ih old (buildSet sticker docs0 ins).2 h0r hnr).2 s hs
                title docs hsets hdocs hfresh d hd hstick
        | some c =>
          by_cases hvalid : validReuse c docs0
          · simp only [hvalid, if_pos]
            refine ⟨(ih (takeCustom old setId) ins h0r hnr).1, ?_⟩
            intro s hs title docs hsets hdocs hfresh d hd hstick
            rcases List.mem_cons.1 hs with hs | hs
            · rw [hs] at hsets hfresh
              rw [hsets] at hset
              cases hset
              exact absurd (hfresh c hfind) (by simp [hvalid])
            · refine (ih (takeCustom old setId) ins h0r hnr).2 s hs title
                docs hsets hdocs ?_ d hd hstick
              intro c' hc'
              refine hfresh c' ?_
              rw [← findCustom_takeCustom old setId s (h0r s hs)
                (fun he => hnotin (he ▸ hs))]
              exact hc'
          · simp only [hvalid, Bool.false_eq_true, if_false]
            refine ⟨?_, ?_⟩
            · intro doc b h
              exact (ih old (buildSet sticker docs0 ins).2 h0r hnr).1 doc b
                (buildSet_preserves sticker docs0 ins doc b h)
            · intro s hs title docs hsets hdocs hfresh d hd hstick
              rcases List.mem_cons.1 hs with hs | hs
              · rw [hs] at hsets
                rw [hsets] at hset
                cases hset
                obtain ⟨b, hb⟩ := buildSet_creates sticker docs0 ins d hd
                  hstick
                exact ⟨b, (ih old (buildSet sticker docs0 ins).2 h0r hnr).1 d
                  b hb⟩
              · exact (ih old (buildSet sticker docs0 ins).2 h0r hnr).2 s hs
                  title docs hsets hdocs hfresh d hd hstick

/-- Counterexample to claim C5 as stated: reuse is decided by searching the
prior list for the same identifier anywhere, not "at the same position".
With prior list [`setA` (id 1), `setB` (id 2)] and new catalog order
[2, 1] (contents unchanged), the new set at position 0 reuses `setB` —
painted flag preserved — although the prior set at position 0 has a
different identifier. -/
theorem C5_counterexample_position :
    (refreshCustom (fun _ => true)
      (fun id => if id = 1 then some (0, [42])
        else if id = 2 then some (0, [42]) else none)
      [2, 1] [setA, setB] []).1 = [setB, setA] ∧
    ([setA, setB].getD 0 default).id = 1 ∧
    setB.id = 2 ∧
    ((refreshCustom (fun _ => true)
      (fun id => if id = 1 then some (0, [42])
        else if id = 2 then some (0, [42]) else none)
      [2, 1] [setA, setB] []).1.getD 0 default).painted = true := by
  decide

/-- Claim C5 (amended): a catalog refresh rebuilds the custom list
wholesale in catalog order; for each identifier (assuming, as the catalog
guarantees, nonzero and duplicate-free identifiers) the new set reuses the
prior set's state — painted flag and all — exactly when the first prior set
with the same identifier, found anywhere in the prior list rather than at
the same position, has the identical ordered document list; otherwise a
fresh set (painted clear) is built whose per-item instances are looked up
in the registry keyed by content id: existing entries keep their state and
every sticker document of a fresh set ends up with an entry. -/
theorem C5_refresh_reuse_amended (sticker : Nat → Bool)
    (sets : Nat → Option (Nat × List Nat)) (order : List Nat)
    (old : List CustomSet) (ins : Instances)
    (h0 : ∀ s ∈ order, s ≠ 0) (hnodup : order.Nodup) :
    (refreshCustom sticker sets order old ins).1
      = order.filterMap (refreshSpecOne sticker sets old) ∧
    (∀ doc b, instancesFind ins doc = some b →
      instancesFind (refreshCustom sticker sets order old ins).2 doc
        = some b) ∧
    (∀ setId ∈ order, ∀ title docs, sets setId = some (title, docs) →
      docs ≠ [] →
      (∀ c, findCustom old setId = some c → validReuse c docs = false) →
      ∀ d ∈ docs, sticker d = true →
      ∃ b, instancesFind (refreshCustom sticker sets order old ins).2 d
        = some b) := by
  refine ⟨refreshCustomAux_fst sticker sets order old ins h0 hnodup, ?_, ?_⟩
  · exact (refreshCustomAux_registry sticker sets order old ins h0 hnodup).1
  · exact (refreshCustomAux_registry sticker sets order old ins h0 hnodup).2

/-- Witness for the amended C5 at the order-swap scenario plus a fresh set
(id 3, document 77) that creates a registry entry while the entry for
document 42 keeps its state. -/
theorem C5_refresh_reuse_amended_witness :
    (refreshCustom (fun _ => true)
      (fun id => if id = 1 then some (0, [42])
        else if id = 2 then some (0, [42])
        else if id = 3 then some (9, [77]) else none)
      [2, 1, 3] [setA, setB] [(42, true)]).1
      = [2, 1, 3].filterMap (refreshSpecOne (fun _ => true)
          (fun id => if id = 1 then some (0, [42])
            else if id = 2 then some (0, [42])
            else if id = 3 then some (9, [77]) else none) [setA, setB]) ∧
    instancesFind (refreshCustom (fun _ => true)
      (fun id => if id = 1 then some (0, [42])
        else if id = 2 then some (0, [42])
        else if id = 3 then some (9, [77]) else none)
      [2, 1, 3] [setA, setB] [(42, true)]).2 42 = some true ∧
    (∃ b, instancesFind (refreshCustom (fun _ => true)
      (fun id => if id = 1 then some (0, [42])
        else if id = 2 then some (0, [42])
        else if id = 3 then some (9, [77]) else none)
      [2, 1, 3] [setA, setB] [(42, true)]).2 77 = some b) := by
  have h := C5_refresh_reuse_amended (fun _ => true)
    (fun id => if id = 1 then some (0, [42])
      else if id = 2 then some (0, [42])
      else if id = 3 then some (9, [77]) else none)
    [2, 1, 3] [setA, setB] [(42, true)] (by decide) (by decide)
  refine ⟨h.1, h.2.1 42 true (by decide), ?_⟩
  exact h.2.2 3 (by decide) 9 [77] (by decide) (by decide)
    (by intro c hc; simp [findCustom, setA, setB, List.find?] at hc)
    77 (by decide) (by decide)

/-- While the overlay is hidden, storing a selection changes only the
`selected` field. -/
theorem setSelected_of_hidden (st : EmojiListState) (n : Int)
    (h : st.picker.hidden = true) :
    setSelected st n = { st with selected := n } := by
  unfold setSelected
  by_cases he : st.selected = n
  · rw [if_pos he, ← he]
  · rw [if_neg he]
    simp [h]

/-- While the overlay is hidden and neither a press nor an overlay target
is active, a selection recompute stores exactly the pointer-derived
index. -/
theorem updateSelected_of_hidden_idle (st : EmojiListState)
    (h : st.picker.hidden = true) (hp : st.pressedSel < 0)
    (hk : st.pickerSel < 0) :
    updateSelected st = { st with selected := hoveredIndex st } := by
  unfold updateSelected
  rw [if_neg (by omega)]
  exact setSelected_of_hidden st _ h

/-- Projections irrelevant to the counts snapshot: consuming the press and
retargeting the pointer does not change the section counts. -/
theorem countsAll_update1 (st : EmojiListState) (p : Int) (l : Int × Int) :
    countsAll { st with pressedSel := p, lastMousePos := l } = countsAll st :=
  rfl

/-- Neither does additionally storing a selection. -/
theorem countsAll_update2 (st : EmojiListState) (p : Int) (l : Int × Int)
    (v : Int) :
    countsAll { st with pressedSel := p, lastMousePos := l, selected := v }
      = countsAll st :=
  rfl

/-- Claim C6: with the overlay hidden and no delay timer armed, releasing
at the same linear index as the press on a loaded built-in item without
variants commits exactly once — the event trace is precisely one
recently-used update followed by one `chosen`; releasing at a different
index commits nothing; and with the overlay still shown over a
multi-variant pressed item (release outside the overlay, no stored
preference), nothing is committed either. -/
theorem C6_commit_flow (ps : PickerStyle) (env : EmojiEnv)
    (st : EmojiListState) (globalPos : Int × Int) :
    (st.picker.hidden = true → st.pickerSel < 0 →
      st.showPickerTimerActive = false → 0 ≤ st.pressedSel →
      hoveredIndex { st with pressedSel := -1, lastMousePos := globalPos }
        = st.pressedSel →
      (IndexToPosition (countsAll st) st.pressedSel.toNat).1
        < kEmojiSectionCount →
      (IndexToPosition (countsAll st) st.pressedSel.toNat).2
        < (st.emoji.getD (IndexToPosition (countsAll st)
            st.pressedSel.toNat).1 []).length →
      env.hasVariants ((st.emoji.getD (IndexToPosition (countsAll st)
          st.pressedSel.toNat).1 []).getD (IndexToPosition (countsAll st)
          st.pressedSel.toNat).2 0) = false →
      (mouseReleaseEvent ps env st globalPos).2
        = [WEvent.recentIncremented ((st.emoji.getD (IndexToPosition
            (countsAll st) st.pressedSel.toNat).1 []).getD (IndexToPosition
            (countsAll st) st.pressedSel.toNat).2 0),
           WEvent.chosen ((st.emoji.getD (IndexToPosition (countsAll st)
            st.pressedSel.toNat).1 []).getD (IndexToPosition (countsAll st)
            st.pressedSel.toNat).2 0)]) ∧
    (st.picker.hidden = true → st.pickerSel < 0 →
      st.showPickerTimerActive = false → 0 ≤ st.pressedSel →
      hoveredIndex { st with pressedSel := -1, lastMousePos := globalPos }
        ≠ st.pressedSel →
      (mouseReleaseEvent ps env st globalPos).2 = []) ∧
    (st.picker.hidden = false →
      ¬ pickerContains ps st.pickerPos st.picker globalPos →
      0 ≤ st.pickerSel →
      st.pressedSel = st.pickerSel → st.selected = st.pickerSel →
      st.showPickerTimerActive = false →
      (IndexToPosition (countsAll st) st.pickerSel.toNat).1
        < kEmojiSectionCount →
      (IndexToPosition (countsAll st) st.pickerSel.toNat).2
        < (st.emoji.getD (IndexToPosition (countsAll st)
            st.pickerSel.toNat).1 []).length →
      env.hasVariants ((st.emoji.getD (IndexToPosition (countsAll st)
          st.pickerSel.toNat).1 []).getD (IndexToPosition (countsAll st)
          st.pickerSel.toNat).2 0) = true →
      ¬ variantsContains st.emojiVariants (env.nonColoredId
        ((st.emoji.getD (IndexToPosition (countsAll st)
            st.pickerSel.toNat).1 []).getD (IndexToPosition (countsAll st)
            st.pickerSel.toNat).2 0)) →
      (mouseReleaseEvent ps env st globalPos).2 = []) := by
  refine ⟨?_, ?_, ?_⟩
  · intro hHid hPk hTimer hPressed hSame hs hsel hnv
    simp only [mouseReleaseEvent]
    set st1 : EmojiListState :=
      { st with pressedSel := -1, lastMousePos := globalPos } with hst1
    have h1 : st1.picker.hidden = true := hHid
    have hc1 : ¬(¬st1.picker.hidden
        ∧ pickerContains ps st1.pickerPos st1.picker globalPos) :=
      fun hc => hc.1 h1
    rw [if_neg hc1]
    have hc2 : ¬(¬st1.picker.hidden ∧ 0 ≤ st1.pickerSel) := fun hc => hc.1 h1
    rw [if_neg hc2]
    have hupd : updateSelected st1 = { st1 with selected := st.pressedSel } := by
      rw [updateSelected_of_hidden_idle st1 h1
        (show (-1 : Int) < 0 by omega) (show st1.pickerSel < 0 from hPk)]
      rw [show hoveredIndex st1 = st.pressedSel from hSame]
    rw [hupd]
    have h4 : ¬ (st.pressedSel < 0) := by omega
    simp only [countsAll] at hs hsel hnv
    simp only [List.getD_eq_getElem?_getD] at hs hsel hnv
    simp [hTimer, h4, hs, hsel, hnv, hHid, selectEmojiEvents, countsAll, hst1]
  · intro hHid hPk hTimer hPressed hDiff
    simp only [mouseReleaseEvent]
    set st1 : EmojiListState :=
      { st with pressedSel := -1, lastMousePos := globalPos } with hst1
    have h1 : st1.picker.hidden = true := hHid
    have hc1 : ¬(¬st1.picker.hidden
        ∧ pickerContains ps st1.pickerPos st1.picker globalPos) :=
      fun hc => hc.1 h1
    rw [if_neg hc1]
    have hc2 : ¬(¬st1.picker.hidden ∧ 0 ≤ st1.pickerSel) := fun hc => hc.1 h1
    rw [if_neg hc2]
    have hupd : updateSelected st1 = { st1 with selected := hoveredIndex st1 } :=
      updateSelected_of_hidden_idle st1 h1
        (show (-1 : Int) < 0 by omega) (show st1.pickerSel < 0 from hPk)
    rw [hupd]
    simp [hTimer, hDiff]
  · intro hHid hNC hPkPos hPressedEq hSelEq hTimer hs hsel hv hVC
    simp only [mouseReleaseEvent]
    set st1 : EmojiListState :=
      { st with pressedSel := -1, lastMousePos := globalPos } with hst1
    have h1 : st1.picker.hidden = false := hHid
    have hc1 : ¬(¬st1.picker.hidden
        ∧ pickerContains ps st1.pickerPos st1.picker globalPos) :=
      fun hc => hNC hc.2
    rw [if_neg hc1]
    have hc2 : ¬st1.picker.hidden ∧ 0 ≤ st1.pickerSel :=
      ⟨by rw [h1]; simp, hPkPos⟩
    rw [if_pos hc2]
    have hc3 : ¬ ((IndexToPosition (countsAll st1) st1.pickerSel.toNat).1
          < kEmojiSectionCount
        ∧ (IndexToPosition (countsAll st1) st1.pickerSel.toNat).2
          < (st1.emoji.getD
            (IndexToPosition (countsAll st1) st1.pickerSel.toNat).1
            []).length
        ∧ env.hasVariants ((st1.emoji.getD
            (IndexToPosition (countsAll st1) st1.pickerSel.toNat).1 []).getD
            (IndexToPosition (countsAll st1) st1.pickerSel.toNat).2 0)
        ∧ variantsContains st1.emojiVariants (env.nonColoredId
            ((st1.emoji.getD
              (IndexToPosition (countsAll st1) st1.pickerSel.toNat).1
              []).getD
              (IndexToPosition (countsAll st1) st1.pickerSel.toNat).2 0))) :=
      fun hc => hVC hc.2.2.2
    rw [if_neg hc3]
    have hupd : updateSelected st1 = st1 := by
      unfold updateSelected
      rw [if_pos (Or.inr (show (0 : Int) ≤ st1.pickerSel from hPkPos))]
    rw [hupd]
    have h4 : ¬ (st.pickerSel < 0) := by omega
    simp only [countsAll] at hs hsel hv hVC
    simp only [List.getD_eq_getElem?_getD] at hs hsel hv hVC
    simp [hTimer, h4, hSelEq, hPressedEq, hs, hsel, hv, hHid, countsAll,
      hst1]
    rw [if_pos (by simpa [hsel] using hv)]

/-- Witness for C6: with built-in counts [5, 0, 2, ...], pressing linear
index 2 (section 0, offset 2, emoji 12, no variants) and releasing at the
same index fires exactly one recently-used update and one `chosen`. -/
theorem C6_commit_flow_witness :
    (mouseReleaseEvent sampleStyle
      { hasVariants := fun _ => false, nonColoredId := id,
        variantsCount := fun _ => 0, variantAt := fun e _ => e }
      { sampleState with pressedSel := 2, selected := 2 } (25, 5)).2
      = [WEvent.recentIncremented 12, WEvent.chosen 12] := by
  have h := (C6_commit_flow sampleStyle
    { hasVariants := fun _ => false, nonColoredId := id,
      variantsCount := fun _ => 0, variantAt := fun e _ => e }
    { sampleState with pressedSel := 2, selected := 2 } (25, 5)).1
    (by decide) (by decide) (by decide) (by decide) (by decide) (by decide)
    (by decide) (by decide)
  rw [h]
  decide

/-- Saving a variant preference makes the stored-preference lookup for its
key succeed. -/
theorem variantsContains_saveEmojiVariant (prefs : List (Nat × Nat))
    (key e : Nat) :
    variantsContains (saveEmojiVariant prefs key e) key := by
  induction prefs with
  | nil => exact ⟨(key, e), by simp [saveEmojiVariant], rfl⟩
  | cons p rest ih =>
    by_cases h : p.1 = key
    · exact ⟨(key, e), by simp [saveEmojiVariant, h], rfl⟩
    · obtain ⟨q, hq, hq2⟩ := ih
      exact ⟨q, by simp [saveEmojiVariant, h, hq], hq2⟩

/-- Claim C7: pressing a loaded built-in multi-variant item whose
preference has never been stored opens the overlay synchronously (the
overlay is shown, no delay timer armed, the event trace is exactly the
overlay handoff plus scroll suspension); pressing one with a stored
preference instead arms the fixed 500 ms delay timer and leaves the
overlay hidden; and committing a variant through the overlay's `chosen`
wiring fires `chosen` with that variant, persists it as the stored
preference, and hides the overlay. -/
theorem C7_variant_overlay (env : EmojiEnv) (st : EmojiListState)
    (globalPos : Int × Int) :
    (∀ i : Int, st.picker.hidden = true → st.pressedSel < 0 →
      st.pickerSel < 0 → st.showPickerTimerActive = false →
      hoveredIndex { st with lastMousePos := globalPos } = i → 0 ≤ i →
      (IndexToPosition (countsAll st) i.toNat).1 < kEmojiSectionCount →
      (IndexToPosition (countsAll st) i.toNat).2
        < (st.emoji.getD (IndexToPosition (countsAll st) i.toNat).1
            []).length →
      env.hasVariants ((st.emoji.getD (IndexToPosition (countsAll st)
          i.toNat).1 []).getD (IndexToPosition (countsAll st) i.toNat).2 0)
        = true →
      ¬ variantsContains st.emojiVariants (env.nonColoredId
        ((st.emoji.getD (IndexToPosition (countsAll st) i.toNat).1
          []).getD (IndexToPosition (countsAll st) i.toNat).2 0)) →
      (mousePressEvent env st globalPos true).2
        = [WEvent.pickerShowEmoji ((st.emoji.getD (IndexToPosition
            (countsAll st) i.toNat).1 []).getD (IndexToPosition
            (countsAll st) i.toNat).2 0), WEvent.disableScroll true] ∧
      (mousePressEvent env st globalPos true).1.picker.hidden = false ∧
      (mousePressEvent env st globalPos true).1.pickerSel = i ∧
      (mousePressEvent env st globalPos true).1.showPickerTimerActive
        = false) ∧
    (∀ i : Int, st.picker.hidden = true → st.pressedSel < 0 →
      st.pickerSel < 0 → st.showPickerTimerActive = false →
      hoveredIndex { st with lastMousePos := globalPos } = i → 0 ≤ i →
      (IndexToPosition (countsAll st) i.toNat).1 < kEmojiSectionCount →
      (IndexToPosition (countsAll st) i.toNat).2
        < (st.emoji.getD (IndexToPosition (countsAll st) i.toNat).1
            []).length →
      env.hasVariants ((st.emoji.getD (IndexToPosition (countsAll st)
          i.toNat).1 []).getD (IndexToPosition (countsAll st) i.toNat).2 0)
        = true →
      variantsContains st.emojiVariants (env.nonColoredId
        ((st.emoji.getD (IndexToPosition (countsAll st) i.toNat).1
          []).getD (IndexToPosition (countsAll st) i.toNat).2 0)) →
      (mousePressEvent env st globalPos true).2 = [WEvent.timerArm 500] ∧
      (mousePressEvent env st globalPos true).1.picker.hidden = true ∧
      (mousePressEvent env st globalPos true).1.pickerSel = i ∧
      (mousePressEvent env st globalPos true).1.showPickerTimerActive
        = true) ∧
    (∀ v : Nat, env.hasVariants v = true →
      (colorChosen env st v).2
        = [WEvent.variantSaved v, WEvent.recentIncremented v,
           WEvent.chosen v, WEvent.pickerHideAnimated] ∧
      variantsContains (colorChosen env st v).1.emojiVariants
        (env.nonColoredId v)) := by
  refine ⟨?_, ?_, ?_⟩
  · intro i hHid hPr hPk hTimer hHov hiPos hs hsel hv hVC
    simp only [mousePressEvent]
    set st1 : EmojiListState := { st with lastMousePos := globalPos } with hst1
    have h1 : st1.picker.hidden = true := hHid
    have hupd : updateSelected st1 = { st1 with selected := i } := by
      rw [updateSelected_of_hidden_idle st1 h1 hPr hPk]
      rw [show hoveredIndex st1 = i from hHov]
    rw [hupd]
    have hch : checkPickerHide { st1 with selected := i }
        = ({ st1 with selected := i }, false) := by
      unfold checkPickerHide
      rw [if_neg (show ¬(¬({ st1 with selected := i }
          : EmojiListState).picker.hidden
        ∧ 0 ≤ ({ st1 with selected := i } : EmojiListState).pickerSel)
        from fun hc => hc.1 h1)]
    rw [hch]
    have h4 : ¬ (i < 0) := by omega
    simp only [countsAll] at hs hsel hv hVC
    simp only [List.getD_eq_getElem?_getD] at hs hsel hv hVC
    simp [hsel] at hv hVC
    simp [hiPos, h4, hs, hsel, hv, hVC, showPicker, pickerShowEmoji,
      countsAll, hHid, hTimer, hst1]
  · intro i hHid hPr hPk hTimer hHov hiPos hs hsel hv hVC
    simp only [mousePressEvent]
    set st1 : EmojiListState := { st with lastMousePos := globalPos } with hst1
    have h1 : st1.picker.hidden = true := hHid
    have hupd : updateSelected st1 = { st1 with selected := i } := by
      rw [updateSelected_of_hidden_idle st1 h1 hPr hPk]
      rw [show hoveredIndex st1 = i from hHov]
    rw [hupd]
    have hch : checkPickerHide { st1 with selected := i }
        = ({ st1 with selected := i }, false) := by
      unfold checkPickerHide
      rw [if_neg (show ¬(¬({ st1 with selected := i }
          : EmojiListState).picker.hidden
        ∧ 0 ≤ ({ st1 with selected := i } : EmojiListState).pickerSel)
        from fun hc => hc.1 h1)]
    rw [hch]
    have h4 : ¬ (i < 0) := by omega
    simp only [countsAll] at hs hsel hv hVC
    simp only [List.getD_eq_getElem?_getD] at hs hsel hv hVC
    simp [hsel] at hv hVC
    simp [hiPos, h4, hs, hsel, hv, hVC, countsAll, hHid, hTimer, hst1]
  · intro v hv
    have hsave := variantsContains_saveEmojiVariant st.emojiVariants
      (env.nonColoredId v) v
    constructor
    · simp [colorChosen, hv, selectEmojiEvents]
    · simp only [colorChosen, hv, if_true]
      split
      · split
        · simpa using hsave
        · simpa using hsave
      · simpa using hsave

/-- Witness for C7: emoji 10 (linear index 0) has variants; with no stored
preference the press opens the overlay synchronously, with a stored
preference it arms the 500 ms timer, and committing variant 10 through the
overlay wiring fires `chosen` and persists the preference. -/
theorem C7_variant_overlay_witness :
    ((mousePressEvent
      { hasVariants := fun e => e == 10, nonColoredId := fun e => e,
        variantsCount := fun _ => 2, variantAt := fun e i => e * 10 + i }
      sampleState (5, 5) true).2
      = [WEvent.pickerShowEmoji 10, WEvent.disableScroll true] ∧
     (mousePressEvent
      { hasVariants := fun e => e == 10, nonColoredId := fun e => e,
        variantsCount := fun _ => 2, variantAt := fun e i => e * 10 + i }
      sampleState (5, 5) true).1.picker.hidden = false) ∧
    ((mousePressEvent
      { hasVariants := fun e => e == 10, nonColoredId := fun e => e,
        variantsCount := fun _ => 2, variantAt := fun e i => e * 10 + i }
      { sampleState with emojiVariants := [(10, 10)] } (5, 5) true).2
      = [WEvent.timerArm 500] ∧
     (mousePressEvent
      { hasVariants := fun e => e == 10, nonColoredId := fun e => e,
        variantsCount := fun _ => 2, variantAt := fun e i => e * 10 + i }
      { sampleState with emojiVariants := [(10, 10)] } (5, 5)
      true).1.showPickerTimerActive = true) ∧
    ((colorChosen
      { hasVariants := fun e => e == 10, nonColoredId := fun e => e,
        variantsCount := fun _ => 2, variantAt := fun e i => e * 10 + i }
      sampleState 10).2
      = [WEvent.variantSaved 10, WEvent.recentIncremented 10,
         WEvent.chosen 10, WEvent.pickerHideAnimated] ∧
     variantsContains (colorChosen
      { hasVariants := fun e => e == 10, nonColoredId := fun e => e,
        variantsCount := fun _ => 2, variantAt := fun e i => e * 10 + i }
      sampleState 10).1.emojiVariants 10) := by
  have h1 := (C7_variant_overlay
    { hasVariants := fun e => e == 10, nonColoredId := fun e => e,
      variantsCount := fun _ => 2, variantAt := fun e i => e * 10 + i }
    sampleState (5, 5)).1 0 (by decide) (by decide) (by decide) (by decide)
    (by decide) (by decide) (by decide) (by decide) (by decide)
    (by decide)
  have h2 := (C7_variant_overlay
    { hasVariants := fun e => e == 10, nonColoredId := fun e => e,
      variantsCount := fun _ => 2, variantAt := fun e i => e * 10 + i }
    { sampleState with emojiVariants := [(10, 10)] } (5, 5)).2.1 0
    (by decide) (by decide) (by decide) (by decide) (by decide) (by decide)
    (by decide) (by decide) (by decide)
    (by exact ⟨(10, 10), by decide, rfl⟩)
  have h3 := (C7_variant_overlay
    { hasVariants := fun e => e == 10, nonColoredId := fun e => e,
      variantsCount := fun _ => 2, variantAt := fun e i => e * 10 + i }
    sampleState (5, 5)).2.2 10 (by decide)
  refine ⟨⟨?_, h1.2.1⟩, ⟨?_, h2.2.2.2⟩, ⟨?_, h3.2⟩⟩
  · rw [h1.1]; decide
  · rw [h2.1]
  · rw [h3.1]

/-- Counterexample to claim C8 as stated: the overlay also commits when no
press index was recorded at all (`_pressedSel == -1`, the usual
press-on-grid, release-inside-overlay flow). Releasing over variant index
2 with press index -1 commits variant 102 although the release index does
not equal the recorded press index, refuting "commits if and only if the
index under the release equals the index recorded at the preceding
press". -/
theorem C8_counterexample_no_press_commit :
    (pickerHandleMouseRelease sampleStyle (0, 0)
      { variants := [100, 101, 102, 103], selected := -1, pressedSel := -1,
        lastMousePos := (0, 0), hidden := false, isHiding := false,
        ignoreShow := false } (26, 5)).2 = some 102 ∧
    (pickerUpdateSelected sampleStyle (0, 0)
      { variants := [100, 101, 102, 103], selected := -1, pressedSel := -1,
        lastMousePos := (26, 5), hidden := false, isHiding := false,
        ignoreShow := false }).selected = 2 ∧
    ({ variants := [100, 101, 102, 103], selected := -1, pressedSel := -1,
        lastMousePos := (0, 0), hidden := false, isHiding := false,
        ignoreShow := false } : PickerState).pressedSel = -1 ∧
    (2 : Int) ≠ -1 := by
  decide

/-- Claim C8 (amended): a release forwarded to the overlay commits a
variant exactly when the index resolved under the release point is valid
and either no press index was recorded (press index < 0) or the release
index equals it — the committed variant being the one under the release;
and at the widget level, while the overlay is shown and the release lands
inside its bounds, the release is forwarded: an overlay commit surfaces as
a `chosen` event (through the `colorChosen` wiring) and an overlay
non-commit produces no events at all. -/
theorem C8_overlay_release_amended (ps : PickerStyle)
    (pickerPos : Int × Int) (pk : PickerState) (globalPos : Int × Int) :
    (∀ v, (pickerHandleMouseRelease ps pickerPos pk globalPos).2 = some v ↔
      (0 ≤ (pickerUpdateSelected ps pickerPos
          { pk with lastMousePos := globalPos, pressedSel := -1 }).selected
        ∧ (pk.pressedSel < 0
          ∨ (pickerUpdateSelected ps pickerPos
              { pk with lastMousePos := globalPos, pressedSel := -1
              }).selected = pk.pressedSel)
        ∧ v = pk.variants.getD (pickerUpdateSelected ps pickerPos
            { pk with lastMousePos := globalPos, pressedSel := -1
            }).selected.toNat 0)) ∧
    (∀ (env : EmojiEnv) (st : EmojiListState),
      st.picker.hidden = false →
      pickerContains ps st.pickerPos st.picker globalPos →
      (∀ v, (pickerHandleMouseRelease ps st.pickerPos st.picker
          globalPos).2 = some v →
        WEvent.chosen v ∈ (mouseReleaseEvent ps env st globalPos).2) ∧
      ((pickerHandleMouseRelease ps st.pickerPos st.picker globalPos).2
          = none →
        (mouseReleaseEvent ps env st globalPos).2 = [])) := by
  constructor
  · intro v
    simp only [pickerHandleMouseRelease]
    by_cases hc : 0 ≤ (pickerUpdateSelected ps pickerPos
        { pk with lastMousePos := globalPos, pressedSel := -1 }).selected
      ∧ (pk.pressedSel < 0
        ∨ (pickerUpdateSelected ps pickerPos
            { pk with lastMousePos := globalPos, pressedSel := -1
            }).selected = pk.pressedSel)
    · rw [if_pos hc]
      constructor
      · intro h
        exact ⟨hc.1, hc.2, (Option.some.injEq _ _ ▸ h).symm⟩
      · rintro ⟨-, -, hv⟩
        rw [hv]
        rfl
    · rw [if_neg hc]
      constructor
      · intro h
        cases h
      · rintro ⟨h1, h2, -⟩
        exact absurd ⟨h1, h2⟩ hc
  · intro env st hHid hIn
    have hcond : ¬({ st with pressedSel := -1, lastMousePos := globalPos }
          : EmojiListState).picker.hidden
        ∧ pickerContains ps
          ({ st with pressedSel := -1, lastMousePos := globalPos }
            : EmojiListState).pickerPos
          ({ st with pressedSel := -1, lastMousePos := globalPos }
            : EmojiListState).picker
          globalPos :=
      ⟨by rw [show ({ st with pressedSel := -1, lastMousePos := globalPos }
            : EmojiListState).picker.hidden = false from hHid]; simp, hIn⟩
    constructor
    · intro v hsome
      simp only [mouseReleaseEvent]
      rw [if_pos hcond]
      rw [show pickerHandleMouseRelease ps
        ({ st with pressedSel := -1, lastMousePos := globalPos }
          : EmojiListState).pickerPos
        ({ st with pressedSel := -1, lastMousePos := globalPos }
          : EmojiListState).picker globalPos
        = (pickerHandleMouseRelease ps st.pickerPos st.picker globalPos)
        from rfl, hsome]
      simp [colorChosen, selectEmojiEvents]
    · intro hnone
      simp only [mouseReleaseEvent]
      rw [if_pos hcond]
      rw [show pickerHandleMouseRelease ps
        ({ st with pressedSel := -1, lastMousePos := globalPos }
          : EmojiListState).pickerPos
        ({ st with pressedSel := -1, lastMousePos := globalPos }
          : EmojiListState).picker globalPos
        = (pickerHandleMouseRelease ps st.pickerPos st.picker globalPos)
        from rfl, hnone]

/-- Witness for the amended C8: the release over variant index 2 with no
recorded press commits variant 102, and at the widget level the forwarded
release surfaces `chosen 102`. -/
theorem C8_overlay_release_amended_witness :
    (pickerHandleMouseRelease sampleStyle (0, 0)
      { variants := [100, 101, 102, 103], selected := -1, pressedSel := -1,
        lastMousePos := (1, 1), hidden := false, isHiding := false,
        ignoreShow := false } (26, 5)).2 = some 102 ∧
    WEvent.chosen 102 ∈ (mouseReleaseEvent sampleStyle
      { hasVariants := fun _ => false, nonColoredId := id,
        variantsCount := fun _ => 0, variantAt := fun e _ => e }
      { sampleState with
        picker :=
          { variants := [100, 101, 102, 103], selected := -1,
            pressedSel := -1, lastMousePos := (1, 1), hidden := false,
            isHiding := false, ignoreShow := false }
        pickerPos := (0, 0) } (26, 5)).2 := by
  constructor
  · exact ((C8_overlay_release_amended sampleStyle (0, 0)
      { variants := [100, 101, 102, 103], selected := -1, pressedSel := -1,
        lastMousePos := (1, 1), hidden := false, isHiding := false,
        ignoreShow := false } (26, 5)).1 102).2
      ⟨by decide, by decide, by decide⟩
  · exact ((C8_overlay_release_amended sampleStyle (0, 0)
      { variants := [100, 101, 102, 103], selected := -1, pressedSel := -1,
        lastMousePos := (1, 1), hidden := false, isHiding := false,
        ignoreShow := false } (26, 5)).2
      { hasVariants := fun _ => false, nonColoredId := id,
        variantsCount := fun _ => 0, variantAt := fun e _ => e }
      { sampleState with
        picker :=
          { variants := [100, 101, 102, 103], selected := -1,
            pressedSel := -1, lastMousePos := (1, 1), hidden := false,
            isHiding := false, ignoreShow := false }
        pickerPos := (0, 0) } (by decide) (by decide)).1 102 (by decide)

end EmojiList
